/-
Verification of the lot-based FIFO inventory ledger of desert_brew_os
(services/inventory_service), as a shallow embedding in Lean 4.

Embedding conventions:
* `Decimal` quantities and costs are modelled as `ℚ` (the columns are
  `Numeric(10,3)` / `Numeric(10,2)`, whose values round-trip exactly through
  the `float(...)` / `Decimal(str(...))` conversions the code performs, so
  the rational model is exact for all representable column values).
* `datetime` timestamps are modelled as `Nat` ticks; SQLAlchemy column
  defaults of `datetime.utcnow` become an explicit `now : Nat` parameter.
* The SQLAlchemy session is modelled as an explicit `DB` state record;
  raising an exception is modelled by returning `Except.error` paired with
  the session state at raise time (the caller's `rollback` discards it).
* The `SELECT ... ORDER BY arrival_date ASC` query is modelled as a stable
  sort (insertion sort) of the stored row order by `arrival_date`: SQL
  guarantees nothing about the relative order of rows with equal keys, and
  the query has no secondary sort key, so ties keep the store's order.
-/
import Mathlib

/- Let concrete witness states evaluate by `decide`/`rfl`: the library marks
rational arithmetic irreducible for elaboration performance only. -/
attribute [local semireducible] Rat.add Rat.sub Rat.mul Rat.inv Rat.ofScientific

namespace DesertBrew

/-- Modelled from the spec: `models/enums.py` is not among the sources (only
its importers are).  Movement kinds are taken from the spec's taxonomy
(CONSUMPTION, TRANSFER_OUT, TRANSFER_IN, ADJUSTMENT) together with the
members actually referenced by `logic/stock_rotation.py` and its tests
(CONSUMPTION, TRANSFER, PURCHASE). -/
inductive MovementType where
  | CONSUMPTION
  | TRANSFER
  | TRANSFER_OUT
  | TRANSFER_IN
  | ADJUSTMENT
  | PURCHASE
deriving DecidableEq, Repr

/-- Modelled from the spec: `models/enums.py` is not among the sources.
Origins referenced by `logic/stock_rotation.py` and its tests and by the
spec (PRODUCTION, SALE, TRANSFER). -/
inductive MovementOrigin where
  | PRODUCTION
  | SALE
  | TRANSFER
  | ADJUSTMENT
deriving DecidableEq, Repr

/-- Modelled from the spec: `models/enums.py` is not among the sources.
The spec's transfer state machine is PENDING → COMPLETED | FAILED. -/
inductive TransferStatus where
  | PENDING
  | COMPLETED
  | FAILED
deriving DecidableEq, Repr

/-- `models/stock.py` : `StockBatch` (the fields the ledger logic touches). -/
structure StockBatch where
  id : Nat
  sku : String
  batch_number : Option String
  category : String
  arrival_date : Nat
  expiration_date : Option Nat
  initial_quantity : ℚ
  remaining_quantity : ℚ
  unit_measure : String
  unit_cost : ℚ
  total_cost : ℚ
  provider_name : Option String
  location : Option String
  is_allocated : Bool
  lock_version : Nat
deriving DecidableEq, Repr

/-- `models/movement.py` : `StockMovement` (audit-trail row). -/
structure StockMovement where
  batch_id : Option Nat
  sku : String
  movement_type : MovementType
  movement_origin : Option MovementOrigin
  quantity : ℚ
  unit_measure : String
  from_location : Option String
  to_location : Option String
  unit_cost : Option ℚ
  total_cost : Option ℚ
  reference : Option String
  notes : Option String
  created_by : Option String
deriving DecidableEq, Repr

/-- `models/transfer.py` : `StockTransfer`. -/
structure StockTransfer where
  id : Nat
  sku : String
  quantity : ℚ
  unit_measure : String
  from_location : String
  to_location : String
  status : TransferStatus
  requested_at : Nat
  completed_at : Option Nat
  requested_by : Option String
  executed_by : Option String
  notes : Option String
deriving DecidableEq, Repr

/-- The database state visible to the inventory logic: the three tables plus
the autoincrement counters of `stock_batches` and `stock_transfers`. -/
structure DB where
  batches : List StockBatch
  movements : List StockMovement
  transfers : List StockTransfer
  nextBatchId : Nat
  nextTransferId : Nat
deriving DecidableEq, Repr

/-- `logic/stock_rotation.py` : `InsufficientStockError(sku, requested, available)`. -/
structure InsufficientStockError where
  sku : String
  requested : ℚ
  available : ℚ
deriving DecidableEq, Repr

/-- One entry of the list returned by `allocate_stock_fifo` (the Python dict
with keys batch_id, batch_number, sku, quantity, unit_measure, unit_cost,
total_cost, provider_name, location). -/
structure AllocEntry where
  batch_id : Nat
  batch_number : Option String
  sku : String
  quantity : ℚ
  unit_measure : String
  unit_cost : ℚ
  total_cost : ℚ
  provider_name : Option String
  location : Option String
deriving DecidableEq, Repr

instance {ε α : Type} [DecidableEq ε] [DecidableEq α] : DecidableEq (Except ε α)
  | .ok a, .ok b =>
    if h : a = b then isTrue (h ▸ rfl)
    else isFalse (fun hc => h (by injection hc))
  | .error e, .error f =>
    if h : e = f then isTrue (h ▸ rfl)
    else isFalse (fun hc => h (by injection hc))
  | .ok _, .error _ => isFalse (fun hc => Except.noConfusion hc)
  | .error _, .ok _ => isFalse (fun hc => Except.noConfusion hc)

/-- Ordering used by `ORDER BY StockBatch.arrival_date ASC`. -/
def arrivalLe (a b : StockBatch) : Prop :=
  a.arrival_date ≤ b.arrival_date

instance : DecidableRel arrivalLe := fun a b =>
  inferInstanceAs (Decidable (a.arrival_date ≤ b.arrival_date))

instance : IsTotal StockBatch arrivalLe :=
  ⟨fun a b => Nat.le_total a.arrival_date b.arrival_date⟩

instance : IsTrans StockBatch arrivalLe :=
  ⟨fun _ _ _ hab hbc => Nat.le_trans hab hbc⟩

/-- The WHERE clause of the eligibility query in `allocate_stock_fifo`:
matching SKU, `remaining_quantity > 0`, and the optional location filter. -/
def eligiblePred (sku : String) (loc : Option String) (b : StockBatch) : Bool :=
  b.sku == sku && decide (0 < b.remaining_quantity) &&
    (match loc with
     | none => true
     | some l => b.location == some l)

/-- The locked eligibility query of `allocate_stock_fifo`: filter, then
`ORDER BY arrival_date ASC` (stable w.r.t. stored row order; the query has
no secondary key). -/
def eligible (bs : List StockBatch) (sku : String) (loc : Option String) :
    List StockBatch :=
  List.insertionSort arrivalLe (bs.filter (eligiblePred sku loc))

/-- The allocation loop of `allocate_stock_fifo`, extracted as the list of
(batch, to_allocate) fragments it produces: for each batch, if the amount
still needed is ≤ 0 stop, else take `min(batch.remaining_quantity, needed)`. -/
def fifoFragments (remaining : ℚ) : List StockBatch → List (StockBatch × ℚ)
  | [] => []
  | b :: bs =>
    if remaining ≤ 0 then []
    else
      let toAlloc := min b.remaining_quantity remaining
      (b, toAlloc) :: fifoFragments (remaining - toAlloc) bs

/-- The in-place mutation the loop performs on one consumed batch:
`remaining_quantity -= to_allocate`; `is_allocated = True` if the new
remaining quantity is 0; `lock_version += 1`. -/
def applyFragment (b : StockBatch) (q : ℚ) : StockBatch :=
  { b with
    remaining_quantity := b.remaining_quantity - q
    is_allocated := if b.remaining_quantity - q = 0 then true else b.is_allocated
    lock_version := b.lock_version + 1 }

/-- Apply one fragment to the row with the matching id in the table. -/
def decBatch (bs : List StockBatch) (bid : Nat) (q : ℚ) : List StockBatch :=
  bs.map (fun b => if b.id == bid then applyFragment b q else b)

/-- Apply all fragments of one allocation to the table. -/
def applyFrags (frags : List (StockBatch × ℚ)) (bs : List StockBatch) :
    List StockBatch :=
  frags.foldl (fun acc p => decBatch acc p.1.id p.2) bs

/-- `logic/stock_rotation.py` : `log_movement` (pure row construction; note
the Python truthiness of `if unit_cost`: a zero unit cost yields a `None`
total cost). -/
def log_movement (batch_id : Option Nat) (sku : String) (mtype : MovementType)
    (quantity : ℚ) (unit_measure : String) (origin : Option MovementOrigin)
    (from_location to_location : Option String)
    (reference notes created_by : Option String) (unit_cost : Option ℚ) :
    StockMovement :=
  { batch_id := batch_id
    sku := sku
    movement_type := mtype
    movement_origin := origin
    quantity := quantity
    unit_measure := unit_measure
    from_location := from_location
    to_location := to_location
    unit_cost := unit_cost
    total_cost :=
      match unit_cost with
      | some c => if c = 0 then none else some (quantity * c)
      | none => none
    reference := reference
    notes := notes
    created_by := created_by }

/-- The CONSUMPTION movement logged for one fragment inside the loop of
`allocate_stock_fifo`. -/
def consumptionMovement (origin : Option MovementOrigin)
    (reference created_by : Option String) (b : StockBatch) (q : ℚ) :
    StockMovement :=
  log_movement (some b.id) b.sku MovementType.CONSUMPTION q b.unit_measure
    origin b.location none reference none created_by (some b.unit_cost)

/-- The allocation dict recorded for one fragment. -/
def mkAllocEntry (b : StockBatch) (q : ℚ) : AllocEntry :=
  { batch_id := b.id
    batch_number := b.batch_number
    sku := b.sku
    quantity := q
    unit_measure := b.unit_measure
    unit_cost := b.unit_cost
    total_cost := q * b.unit_cost
    provider_name := b.provider_name
    location := b.location }

/-- `logic/stock_rotation.py` : `allocate_stock_fifo`.  Returns the raised
exception or the allocation list, paired with the session state when the
function returns/raises (the raise happens before any mutation, so the
error case carries the unchanged state). -/
def allocate_stock_fifo (db : DB) (sku : String) (amount_needed : ℚ)
    (location : Option String) (movement_origin : Option MovementOrigin)
    (reference created_by : Option String) :
    Except InsufficientStockError (List AllocEntry) × DB :=
  let batches := eligible db.batches sku location
  let total_available := (batches.map (·.remaining_quantity)).sum
  if total_available < amount_needed then
    (.error ⟨sku, amount_needed, total_available⟩, db)
  else
    let frags := fifoFragments amount_needed batches
    (.ok (frags.map (fun p => mkAllocEntry p.1 p.2)),
     { db with
       batches := applyFrags frags db.batches
       movements := db.movements ++
         frags.map (fun p =>
           consumptionMovement movement_origin reference created_by p.1 p.2) })

/-- The destination batch `transfer_stock` creates for one allocation
fragment.  `alloc.get("category", "OTHER")` always yields `"OTHER"` because
the allocation dict has no `category` key; `arrival_date` is not passed, so
the column default (`datetime.utcnow`, here `now`) applies. -/
def mkDestBatch (tid : Nat) (sku to_location : String) (now nid : Nat)
    (a : AllocEntry) : StockBatch :=
  { id := nid
    sku := sku
    batch_number := some ("TRANSFER-" ++ toString tid ++ "-FROM-" ++ toString a.batch_id)
    category := "OTHER"
    arrival_date := now
    expiration_date := none
    initial_quantity := a.quantity
    remaining_quantity := a.quantity
    unit_measure := a.unit_measure
    unit_cost := a.unit_cost
    total_cost := a.total_cost
    provider_name := a.provider_name
    location := some to_location
    is_allocated := false
    lock_version := 1 }

/-- The TRANSFER movement logged at the destination for one fragment. -/
def transferMovement (tid : Nat) (sku from_location to_location : String)
    (created_by : Option String) (nid : Nat) (a : AllocEntry) : StockMovement :=
  log_movement (some nid) sku MovementType.TRANSFER a.quantity a.unit_measure
    (some MovementOrigin.TRANSFER) (some from_location) (some to_location)
    (some ("Transfer #" ++ toString tid)) none created_by (some a.unit_cost)

/-- The destination loop of `transfer_stock`: for each fragment, insert a new
batch at the destination (taking a fresh autoincrement id) and log the
incoming TRANSFER movement. -/
def addDestBatches (tid : Nat) (sku to_location from_location : String)
    (now : Nat) (created_by : Option String) :
    DB → List AllocEntry → DB
  | d, [] => d
  | d, a :: as =>
    addDestBatches tid sku to_location from_location now created_by
      { d with
        batches := d.batches ++ [mkDestBatch tid sku to_location now d.nextBatchId a]
        movements := d.movements ++
          [transferMovement tid sku from_location to_location created_by d.nextBatchId a]
        nextBatchId := d.nextBatchId + 1 }
      as

/-- The PENDING transfer row `transfer_stock` inserts first (`unit_measure`
is the empty string until the first allocation fragment is known). -/
def pendingTransfer (tid : Nat) (sku : String) (quantity : ℚ)
    (from_location to_location : String) (now : Nat)
    (requested_by notes : Option String) : StockTransfer :=
  { id := tid
    sku := sku
    quantity := quantity
    unit_measure := ""
    from_location := from_location
    to_location := to_location
    status := TransferStatus.PENDING
    requested_at := now
    completed_at := none
    requested_by := requested_by
    executed_by := none
    notes := notes }

/-- The final state of the transfer row after the destination loop:
`unit_measure` from the first fragment, status COMPLETED, completion
timestamp and executor set. -/
def completedTransfer (t0 : StockTransfer) (allocs : List AllocEntry)
    (now : Nat) (requested_by : Option String) : StockTransfer :=
  { t0 with
    unit_measure :=
      match allocs.head? with
      | some a => a.unit_measure
      | none => ""
    status := TransferStatus.COMPLETED
    completed_at := some now
    executed_by := requested_by }

/-- `logic/stock_rotation.py` : `transfer_stock`.  Creates a PENDING transfer
row, allocates FIFO at the source, creates mirrored batches at the
destination, and marks the transfer COMPLETED.  On allocation failure the
exception propagates; the error case carries the session state at raise
time (the PENDING transfer row is already inserted, nothing else changed). -/
def transfer_stock (db : DB) (sku : String) (quantity : ℚ)
    (from_location to_location : String) (now : Nat)
    (requested_by notes : Option String) :
    Except InsufficientStockError StockTransfer × DB :=
  let tid := db.nextTransferId
  let t0 := pendingTransfer tid sku quantity from_location to_location now
    requested_by notes
  let db1 : DB :=
    { db with transfers := db.transfers ++ [t0], nextTransferId := tid + 1 }
  match allocate_stock_fifo db1 sku quantity (some from_location)
      (some MovementOrigin.TRANSFER) (some ("Transfer #" ++ toString tid))
      requested_by with
  | (.error e, dbe) => (.error e, dbe)
  | (.ok allocs, db2) =>
    let db3 := addDestBatches tid sku to_location from_location now
      requested_by db2 allocs
    let tfin := completedTransfer t0 allocs now requested_by
    (.ok tfin,
     { db3 with
       transfers := db3.transfers.map (fun t => if t.id == tid then tfin else t) })

/-- `api/movement_routes.py` : `create_transfer`.  Commits on success; on
`InsufficientStockError` rolls the session back, so the caller observes the
original state. -/
def create_transfer (db : DB) (sku : String) (quantity : ℚ)
    (from_location to_location : String) (now : Nat)
    (requested_by notes : Option String) :
    Except InsufficientStockError StockTransfer × DB :=
  match transfer_stock db sku quantity from_location to_location now
      requested_by notes with
  | (.ok t, db2) => (.ok t, db2)
  | (.error e, _) => (.error e, db)

/-- Failure modes of `PATCH /stock-batches/{batch_id}/consume`.
`invalidQuantity` is the FastAPI `Query(..., gt=0)` rejection; the others
are the handler's own HTTP 404/400 responses. -/
inductive ConsumeError where
  | invalidQuantity
  | notFound
  | unitMismatch
  | insufficientQuantity
deriving DecidableEq, Repr

/-- Python's `str.upper()` (character-wise uppercase). -/
def upperStr (s : String) : String :=
  ⟨s.data.map Char.toUpper⟩

/-- `api/stock_routes.py` : `consume_stock_batch`.  Decrements one batch's
`remaining_quantity` after the unit and sufficiency checks.  NOTE: the
handler creates no `StockMovement` row (the source carries a TODO comment in
its place), and does not touch `is_allocated`. -/
def consume_stock_batch (db : DB) (batch_id : Nat) (quantity : ℚ)
    (unit : String) : Except ConsumeError DB :=
  if quantity ≤ 0 then .error .invalidQuantity
  else
    match db.batches.find? (fun b => b.id == batch_id) with
    | none => .error .notFound
    | some sb =>
      if upperStr sb.unit_measure ≠ upperStr unit then .error .unitMismatch
      else if sb.remaining_quantity < quantity then .error .insufficientQuantity
      else
        .ok { db with
              batches := db.batches.map (fun b =>
                if b.id == batch_id then
                  { b with remaining_quantity := b.remaining_quantity - quantity }
                else b) }

/-- `schemas/stock.py` : `StockBatchCreate` (fields the ledger logic uses;
pydantic enforces `quantity > 0` and `unit_cost > 0`). -/
structure StockBatchCreate where
  sku : String
  batch_number : Option String
  category : String
  quantity : ℚ
  unit_measure : String
  unit_cost : ℚ
  provider_name : Option String
  invoice_number : Option String
  location : Option String
  expiration_date : Option Nat
deriving DecidableEq, Repr

/-- `api/stock_routes.py` : `receive_stock`.  After schema validation,
creates a batch with `remaining_quantity = initial_quantity = quantity` and
`total_cost = quantity * unit_cost`. -/
def receive_stock (db : DB) (s : StockBatchCreate) (now : Nat) :
    Except Unit (StockBatch × DB) :=
  if s.quantity ≤ 0 ∨ s.unit_cost ≤ 0 then .error ()
  else
    let nb : StockBatch :=
      { id := db.nextBatchId
        sku := s.sku
        batch_number := s.batch_number
        category := s.category
        arrival_date := now
        expiration_date := s.expiration_date
        initial_quantity := s.quantity
        remaining_quantity := s.quantity
        unit_measure := s.unit_measure
        unit_cost := s.unit_cost
        total_cost := s.quantity * s.unit_cost
        provider_name := s.provider_name
        location := s.location
        is_allocated := false
        lock_version := 1 }
    .ok (nb, { db with batches := db.batches ++ [nb], nextBatchId := db.nextBatchId + 1 })

/-- Sum of `remaining_quantity` over the rows satisfying a predicate. -/
def totalBy (p : StockBatch → Bool) (bs : List StockBatch) : ℚ :=
  (bs.map (fun b => if p b then b.remaining_quantity else 0)).sum

/-- Total remaining quantity of a SKU across all locations. -/
def totalSku (bs : List StockBatch) (sku : String) : ℚ :=
  totalBy (fun b => b.sku == sku) bs

/-- Total remaining quantity of a SKU at one location. -/
def totalSkuLoc (bs : List StockBatch) (sku loc : String) : ℚ :=
  totalBy (fun b => b.sku == sku && b.location == some loc) bs

/-- Row predicate of an allocation scope: matching SKU plus the optional
location filter (the non-quantity part of the eligibility WHERE clause). -/
def skuLocPred (sku : String) (loc : Option String) (b : StockBatch) : Bool :=
  b.sku == sku &&
    (match loc with
     | none => true
     | some l => b.location == some l)

/-- Total remaining quantity of a SKU under the optional location filter
(`loc = none` is the SKU-wide total). -/
def totalSkuAt (bs : List StockBatch) (sku : String) (loc : Option String) : ℚ :=
  totalBy (skuLocPred sku loc) bs

/-- Well-formedness the database guarantees: batch primary keys are distinct
and below the autoincrement counter. -/
def WF (db : DB) : Prop :=
  (db.batches.map (·.id)).Nodup ∧ ∀ b ∈ db.batches, b.id < db.nextBatchId

instance (db : DB) : Decidable (WF db) :=
  inferInstanceAs (Decidable (_ ∧ _))

/-- The spec's per-lot bounds invariant. -/
def batchBounds (b : StockBatch) : Prop :=
  0 ≤ b.remaining_quantity ∧ b.remaining_quantity ≤ b.initial_quantity

instance (b : StockBatch) : Decidable (batchBounds b) :=
  inferInstanceAs (Decidable (_ ∧ _))

/-- Bounds invariant over the whole store. -/
def dbBounds (db : DB) : Prop :=
  ∀ b ∈ db.batches, batchBounds b

instance (db : DB) : Decidable (dbBounds db) :=
  inferInstanceAs (Decidable (∀ b ∈ db.batches, batchBounds b))

/-- Sum of `initial_quantity − remaining_quantity` documented against a lot
by CONSUMPTION / TRANSFER_OUT ledger rows (the spec's conservation formula). -/
def consumedVia (movs : List StockMovement) (bid : Nat) : ℚ :=
  (movs.map (fun m =>
    if m.batch_id == some bid &&
       (m.movement_type == MovementType.CONSUMPTION ||
        m.movement_type == MovementType.TRANSFER_OUT) then
      m.quantity
    else 0)).sum

/-- The spec's conservation invariant: for every lot, the quantity consumed
so far equals the CONSUMPTION/TRANSFER_OUT ledger total against it. -/
def conservation (db : DB) : Prop :=
  ∀ b ∈ db.batches, b.initial_quantity - b.remaining_quantity =
    consumedVia db.movements b.id

instance (db : DB) : Decidable (conservation db) :=
  inferInstanceAs (Decidable (∀ b ∈ db.batches, _ = _))

/-- The single reachable-state transition relation of the exposed operations
that touch the lot store (each constructor wraps one embedded operation;
the error branches of `allocate_stock_fifo` and `transfer_stock` return
their session state unchanged / with only a transfer row added, so both
branches are covered by taking the returned state). -/
inductive Step : DB → DB → Prop where
  | receive (db : DB) (s : StockBatchCreate) (now : Nat) (nb : StockBatch) (db' : DB) :
      receive_stock db s now = .ok (nb, db') → Step db db'
  | allocate (db : DB) (sku : String) (amount : ℚ) (loc : Option String)
      (o : Option MovementOrigin) (r cb : Option String) :
      Step db (allocate_stock_fifo db sku amount loc o r cb).2
  | consume (db : DB) (bid : Nat) (q : ℚ) (u : String) (db' : DB) :
      consume_stock_batch db bid q u = .ok db' → Step db db'
  | transfer (db : DB) (sku : String) (q : ℚ) (fl tl : String) (now : Nat)
      (rb n : Option String) :
      Step db (transfer_stock db sku q fl tl now rb n).2

/-- Serialized execution of a sequence of allocation requests against one
SKU/location: `SELECT ... FOR UPDATE` makes concurrent `allocate_stock_fifo`
calls on the same rows run one after another (spec §5), and a failed call's
session is rolled back, so a set of concurrent calls is modelled as a
sequence of calls against the evolving state.  Returns the final state and,
per request, `some` granted total or `none` for an InsufficientStock
failure. -/
def runAllocs (sku : String) (loc : Option String) :
    DB → List ℚ → DB × List (Option ℚ)
  | db, [] => (db, [])
  | db, a :: as =>
    match allocate_stock_fifo db sku a loc none none none with
    | (.ok allocs, db') =>
      let r := runAllocs sku loc db' as
      (r.1, some ((allocs.map (·.quantity)).sum) :: r.2)
    | (.error _, _) =>
      let r := runAllocs sku loc db as
      (r.1, none :: r.2)

/-- Total quantity granted across the successful calls of a serialized run. -/
def grantedSum (rs : List (Option ℚ)) : ℚ :=
  (rs.map (fun r => r.getD 0)).sum

/-! ### Properties of the allocation loop -/

theorem fifoFragments_nil_of_nonpos (remaining : ℚ) (bs : List StockBatch)
    (h : remaining ≤ 0) : fifoFragments remaining bs = [] := by
  cases bs with
  | nil => rfl
  | cons b bs => simp [fifoFragments, h]

theorem fifoFragments_map_fst_prefix (remaining : ℚ) (bs : List StockBatch) :
    (fifoFragments remaining bs).map Prod.fst <+: bs := by
  induction bs generalizing remaining with
  | nil => simp [fifoFragments]
  | cons b bs ih =>
    by_cases h : remaining ≤ 0
    · simp [fifoFragments, h]
    · rw [fifoFragments]
      simp only [if_neg h, List.map_cons]
      exact List.cons_prefix_cons.mpr
        ⟨rfl, ih (remaining - min b.remaining_quantity remaining)⟩

theorem fifoFragments_mem (remaining : ℚ) (bs : List StockBatch)
    (hpos : ∀ b ∈ bs, 0 < b.remaining_quantity) :
    ∀ p ∈ fifoFragments remaining bs,
      p.1 ∈ bs ∧ 0 < p.2 ∧ p.2 ≤ p.1.remaining_quantity := by
  induction bs generalizing remaining with
  | nil => simp [fifoFragments]
  | cons b bs ih =>
    intro p hp
    by_cases h : remaining ≤ 0
    · simp [fifoFragments, h] at hp
    · simp only [fifoFragments, if_neg h, List.mem_cons] at hp
      rcases hp with hp | hp
      · subst hp
        refine ⟨List.mem_cons_self _ _, ?_, min_le_left _ _⟩
        exact lt_min (hpos b (List.mem_cons_self _ _)) (lt_of_not_le h)
      · obtain ⟨h1, h2, h3⟩ := ih _ (fun x hx => hpos x (List.mem_cons_of_mem _ hx)) p hp
        exact ⟨List.mem_cons_of_mem _ h1, h2, h3⟩

theorem fifoFragments_sum (remaining : ℚ) (bs : List StockBatch)
    (h0 : 0 ≤ remaining)
    (hle : remaining ≤ (bs.map (·.remaining_quantity)).sum)
    (hpos : ∀ b ∈ bs, 0 < b.remaining_quantity) :
    ((fifoFragments remaining bs).map Prod.snd).sum = remaining := by
  induction bs generalizing remaining with
  | nil =>
    simp only [List.map_nil, List.sum_nil] at hle
    simp [fifoFragments, le_antisymm hle h0]
  | cons b bs ih =>
    by_cases h : remaining ≤ 0
    · have hz : remaining = 0 := le_antisymm h h0
      subst hz
      simp [fifoFragments_nil_of_nonpos 0 _ le_rfl]
    · rw [fifoFragments]
      simp only [if_neg h, List.map_cons, List.sum_cons]
      have hbs_nonneg : 0 ≤ (bs.map (·.remaining_quantity)).sum :=
        List.sum_nonneg (by
          intro x hx
          simp only [List.mem_map] at hx
          obtain ⟨c, hc, rfl⟩ := hx
          exact le_of_lt (hpos c (List.mem_cons_of_mem _ hc)))
      have hrec := ih (remaining - min b.remaining_quantity remaining)
        (by simp [min_le_right b.remaining_quantity remaining])
        (by
          rcases le_total b.remaining_quantity remaining with hmin | hmin
          · rw [min_eq_left hmin]
            simp only [List.map_cons, List.sum_cons] at hle
            linarith
          · rw [min_eq_right hmin]
            simpa using hbs_nonneg)
        (fun x hx => hpos x (List.mem_cons_of_mem _ hx))
      rw [hrec]
      ring

theorem fifoFragments_snd_nonneg (remaining : ℚ) (bs : List StockBatch)
    (hpos : ∀ b ∈ bs, 0 < b.remaining_quantity) :
    0 ≤ ((fifoFragments remaining bs).map Prod.snd).sum :=
  List.sum_nonneg (by
    intro x hx
    simp only [List.mem_map] at hx
    obtain ⟨p, hp, rfl⟩ := hx
    exact le_of_lt (fifoFragments_mem remaining bs hpos p hp).2.1)

theorem fifoFragments_ne_nil (remaining : ℚ) (b : StockBatch)
    (bs : List StockBatch) (h0 : 0 < remaining) :
    fifoFragments remaining (b :: bs) ≠ [] := by
  rw [fifoFragments]
  simp [not_le.mpr h0]

theorem fifoFragments_dropLast_full (remaining : ℚ) (bs : List StockBatch) :
    ∀ p ∈ (fifoFragments remaining bs).dropLast,
      p.2 = p.1.remaining_quantity := by
  induction bs generalizing remaining with
  | nil => simp [fifoFragments]
  | cons b bs ih =>
    by_cases h : remaining ≤ 0
    · simp [fifoFragments, h]
    · rw [fifoFragments]
      simp only [if_neg h]
      rcases le_total remaining b.remaining_quantity with hmin | hmin
      · rw [min_eq_right hmin, fifoFragments_nil_of_nonpos _ _ (by linarith)]
        simp
      · rw [min_eq_left hmin]
        intro p hp
        cases hrest : fifoFragments (remaining - b.remaining_quantity) bs with
        | nil => rw [hrest] at hp; simp at hp
        | cons q qs =>
          rw [hrest, List.dropLast_cons₂, List.mem_cons] at hp
          rcases hp with hp | hp
          · rw [hp]
          · have := ih (remaining - b.remaining_quantity) p
            rw [hrest] at this
            exact this hp

/-! ### The effect of one allocation on the batch table -/

/-- The cumulative effect of a fragment list on a single row. -/
def applyChain (frags : List (StockBatch × ℚ)) (b : StockBatch) : StockBatch :=
  frags.foldl (fun c p => if c.id == p.1.id then applyFragment c p.2 else c) b

theorem applyFragment_id (b : StockBatch) (q : ℚ) :
    (applyFragment b q).id = b.id := rfl

theorem applyFrags_eq_map (frags : List (StockBatch × ℚ)) (bs : List StockBatch) :
    applyFrags frags bs = bs.map (applyChain frags) := by
  induction frags generalizing bs with
  | nil =>
    show bs = bs.map (applyChain [])
    have h0 : applyChain [] = fun b : StockBatch => b := rfl
    rw [h0]
    exact (List.map_id' bs).symm
  | cons p ps ih =>
    have h1 : applyFrags (p :: ps) bs = applyFrags ps (decBatch bs p.1.id p.2) := rfl
    rw [h1, ih, decBatch, List.map_map]
    rfl

theorem applyChain_id (frags : List (StockBatch × ℚ)) (b : StockBatch) :
    (applyChain frags b).id = b.id := by
  induction frags generalizing b with
  | nil => rfl
  | cons p ps ih =>
    show (applyChain ps _).id = b.id
    rw [ih]
    by_cases h : b.id == p.1.id <;> simp [h, applyFragment_id]

theorem applyChain_sku (frags : List (StockBatch × ℚ)) (b : StockBatch) :
    (applyChain frags b).sku = b.sku := by
  induction frags generalizing b with
  | nil => rfl
  | cons p ps ih =>
    show (applyChain ps _).sku = b.sku
    rw [ih]
    by_cases h : b.id == p.1.id <;> simp [h, applyFragment]

theorem applyChain_location (frags : List (StockBatch × ℚ)) (b : StockBatch) :
    (applyChain frags b).location = b.location := by
  induction frags generalizing b with
  | nil => rfl
  | cons p ps ih =>
    show (applyChain ps _).location = b.location
    rw [ih]
    by_cases h : b.id == p.1.id <;> simp [h, applyFragment]

theorem applyChain_initial (frags : List (StockBatch × ℚ)) (b : StockBatch) :
    (applyChain frags b).initial_quantity = b.initial_quantity := by
  induction frags generalizing b with
  | nil => rfl
  | cons p ps ih =>
    show (applyChain ps _).initial_quantity = b.initial_quantity
    rw [ih]
    by_cases h : b.id == p.1.id <;> simp [h, applyFragment]

theorem applyChain_arrival (frags : List (StockBatch × ℚ)) (b : StockBatch) :
    (applyChain frags b).arrival_date = b.arrival_date := by
  induction frags generalizing b with
  | nil => rfl
  | cons p ps ih =>
    show (applyChain ps _).arrival_date = b.arrival_date
    rw [ih]
    by_cases h : b.id == p.1.id <;> simp [h, applyFragment]

theorem applyChain_eq_self (frags : List (StockBatch × ℚ)) (b : StockBatch)
    (h : ∀ p ∈ frags, p.1.id ≠ b.id) : applyChain frags b = b := by
  induction frags with
  | nil => rfl
  | cons p ps ih =>
    show applyChain ps (if b.id == p.1.id then applyFragment b p.2 else b) = b
    rw [if_neg (by
      simp only [beq_iff_eq]
      exact fun hc => h p (List.mem_cons_self _ _) hc.symm)]
    exact ih (fun q hq => h q (List.mem_cons_of_mem _ hq))

theorem applyChain_single (frags : List (StockBatch × ℚ)) (b : StockBatch)
    (p : StockBatch × ℚ)
    (hnd : (frags.map (fun q => q.1.id)).Nodup)
    (hp : p ∈ frags) (hid : b.id = p.1.id) :
    applyChain frags b = applyFragment b p.2 := by
  induction frags generalizing b with
  | nil => simp at hp
  | cons q qs ih =>
    rw [List.map_cons, List.nodup_cons] at hnd
    rcases List.mem_cons.mp hp with rfl | hp'
    · show applyChain qs (if b.id == p.1.id then applyFragment b p.2 else b) =
        applyFragment b p.2
      rw [if_pos (beq_iff_eq.mpr hid)]
      refine applyChain_eq_self qs _ ?_
      intro r hr hc
      rw [applyFragment_id] at hc
      exact hnd.1 (List.mem_map.mpr ⟨r, hr, hc.trans hid⟩)
    · have hne : b.id ≠ q.1.id := by
        intro hc
        apply hnd.1
        have hm : p.1.id ∈ List.map (fun r => r.1.id) qs :=
          List.mem_map.mpr ⟨p, hp', rfl⟩
        rwa [← hid, hc] at hm
      show applyChain qs (if b.id == q.1.id then applyFragment b q.2 else b) =
        applyFragment b p.2
      rw [if_neg (by simpa using hne)]
      exact ih b hnd.2 hp' hid

theorem applyChain_remaining_le (frags : List (StockBatch × ℚ)) (b : StockBatch)
    (h : ∀ p ∈ frags, 0 ≤ p.2) :
    (applyChain frags b).remaining_quantity ≤ b.remaining_quantity := by
  induction frags generalizing b with
  | nil => exact le_rfl
  | cons p ps ih =>
    show (applyChain ps (if b.id == p.1.id then applyFragment b p.2 else b)).remaining_quantity ≤
      b.remaining_quantity
    by_cases hc : b.id == p.1.id
    · rw [if_pos hc]
      refine le_trans (ih _ (fun q hq => h q (List.mem_cons_of_mem _ hq))) ?_
      have : 0 ≤ p.2 := h p (List.mem_cons_self _ _)
      simp only [applyFragment]
      linarith
    · rw [if_neg hc]
      exact ih _ (fun q hq => h q (List.mem_cons_of_mem _ hq))

/-! ### Totals -/

theorem totalBy_cons (p : StockBatch → Bool) (b : StockBatch)
    (bs : List StockBatch) :
    totalBy p (b :: bs) = (if p b then b.remaining_quantity else 0) + totalBy p bs := by
  simp [totalBy]

theorem totalBy_append (p : StockBatch → Bool) (xs ys : List StockBatch) :
    totalBy p (xs ++ ys) = totalBy p xs + totalBy p ys := by
  simp [totalBy]

theorem totalBy_nonneg (p : StockBatch → Bool) (bs : List StockBatch)
    (h : ∀ b ∈ bs, 0 ≤ b.remaining_quantity) : 0 ≤ totalBy p bs := by
  refine List.sum_nonneg ?_
  intro x hx
  simp only [List.mem_map] at hx
  obtain ⟨b, hb, rfl⟩ := hx
  by_cases hp : p b <;> simp [hp, h b hb]

theorem decBatch_map_id (bs : List StockBatch) (bid : Nat) (q : ℚ) :
    (decBatch bs bid q).map (·.id) = bs.map (·.id) := by
  simp only [decBatch, List.map_map]
  refine List.map_congr_left ?_
  intro b _
  by_cases h : b.id = bid
  · rw [Function.comp_apply, if_pos (by simpa using h), applyFragment_id]
  · rw [Function.comp_apply, if_neg (by simpa using h)]

theorem decBatch_eq_of_not_mem (bs : List StockBatch) (bid : Nat) (q : ℚ) :
    (∀ b ∈ bs, b.id ≠ bid) → decBatch bs bid q = bs := by
  induction bs with
  | nil => intro; rfl
  | cons b rest ih =>
    intro h
    show (if b.id == bid then applyFragment b q else b) :: decBatch rest bid q =
      b :: rest
    rw [if_neg (by simpa using h b (List.mem_cons_self _ _)),
      ih (fun c hc => h c (List.mem_cons_of_mem _ hc))]

theorem totalBy_decBatch_hit (p : StockBatch → Bool)
    (hp : ∀ b q, p (applyFragment b q) = p b)
    (bs : List StockBatch) (bid : Nat) (q : ℚ)
    (hnd : (bs.map (·.id)).Nodup)
    (hw : ∃ b ∈ bs, b.id = bid ∧ p b = true) :
    totalBy p (decBatch bs bid q) = totalBy p bs - q := by
  induction bs with
  | nil => simp at hw
  | cons b rest ih =>
    rw [List.map_cons, List.nodup_cons] at hnd
    by_cases hb : b.id = bid
    · have hpb : p b = true := by
        obtain ⟨w, hw1, hw2, hw3⟩ := hw
        rcases List.mem_cons.mp hw1 with rfl | hw1'
        · exact hw3
        · exfalso
          apply hnd.1
          have hm : w.id ∈ List.map (fun x => x.id) rest :=
            List.mem_map.mpr ⟨w, hw1', rfl⟩
          rwa [hw2, ← hb] at hm
      have hrest : ∀ c ∈ rest, c.id ≠ bid := by
        intro c hc hcid
        apply hnd.1
        have hm : c.id ∈ List.map (fun x => x.id) rest :=
          List.mem_map.mpr ⟨c, hc, rfl⟩
        rwa [hcid, ← hb] at hm
      show totalBy p ((if b.id == bid then applyFragment b q else b) ::
        decBatch rest bid q) = _
      rw [if_pos (beq_iff_eq.mpr hb), decBatch_eq_of_not_mem rest bid q hrest,
        totalBy_cons, totalBy_cons, hp b q, if_pos hpb, if_pos hpb]
      show b.remaining_quantity - q + totalBy p rest =
        b.remaining_quantity + totalBy p rest - q
      ring
    · have hw' : ∃ c ∈ rest, c.id = bid ∧ p c = true := by
        obtain ⟨w, hw1, hw2, hw3⟩ := hw
        rcases List.mem_cons.mp hw1 with rfl | hw1'
        · exact absurd hw2 hb
        · exact ⟨w, hw1', hw2, hw3⟩
      show totalBy p ((if b.id == bid then applyFragment b q else b) ::
        decBatch rest bid q) = _
      rw [if_neg (by simpa using hb), totalBy_cons, totalBy_cons,
        ih hnd.2 hw']
      ring

theorem totalBy_decBatch_miss (p : StockBatch → Bool)
    (hp : ∀ b q, p (applyFragment b q) = p b)
    (bs : List StockBatch) (bid : Nat) (q : ℚ)
    (hw : ∀ b ∈ bs, b.id = bid → p b = false) :
    totalBy p (decBatch bs bid q) = totalBy p bs := by
  induction bs with
  | nil => rfl
  | cons b rest ih =>
    show totalBy p ((if b.id == bid then applyFragment b q else b) ::
      decBatch rest bid q) = _
    rw [totalBy_cons, totalBy_cons,
      ih (fun c hc => hw c (List.mem_cons_of_mem _ hc))]
    by_cases hb : b.id = bid
    · rw [if_pos (beq_iff_eq.mpr hb), hp b q,
        hw b (List.mem_cons_self _ _) hb]
      simp
    · have hbne : ¬((b.id == bid) = true) := by simpa using hb
      rw [if_neg hbne]

theorem mem_decBatch_of_mem (bs : List StockBatch) (bid : Nat) (q : ℚ)
    (b : StockBatch) (hb : b ∈ bs) :
    (if b.id == bid then applyFragment b q else b) ∈ decBatch bs bid q :=
  List.mem_map_of_mem _ hb

theorem totalBy_applyFrags_hit (p : StockBatch → Bool)
    (hp : ∀ b q, p (applyFragment b q) = p b)
    (frags : List (StockBatch × ℚ)) (bs : List StockBatch)
    (hnd : (bs.map (·.id)).Nodup)
    (hw : ∀ pr ∈ frags, ∃ b ∈ bs, b.id = pr.1.id ∧ p b = true) :
    totalBy p (applyFrags frags bs) = totalBy p bs - (frags.map Prod.snd).sum := by
  induction frags generalizing bs with
  | nil => simp [applyFrags]
  | cons pr prs ih =>
    have h1 : applyFrags (pr :: prs) bs = applyFrags prs (decBatch bs pr.1.id pr.2) := rfl
    rw [h1, ih (decBatch bs pr.1.id pr.2)
        (by rw [decBatch_map_id]; exact hnd)
        (by
          intro pr' hpr'
          obtain ⟨b, hb, hbid, hpb⟩ := hw pr' (List.mem_cons_of_mem _ hpr')
          refine ⟨if b.id == pr.1.id then applyFragment b pr.2 else b,
            mem_decBatch_of_mem bs pr.1.id pr.2 b hb, ?_, ?_⟩
          · by_cases hc : b.id = pr.1.id
            · rw [if_pos (by simpa using hc), applyFragment_id]
              exact hbid
            · rw [if_neg (by simpa using hc)]
              exact hbid
          · by_cases hc : b.id = pr.1.id
            · rw [if_pos (by simpa using hc), hp]
              exact hpb
            · rw [if_neg (by simpa using hc)]
              exact hpb),
      totalBy_decBatch_hit p hp bs pr.1.id pr.2 hnd
        (hw pr (List.mem_cons_self _ _))]
    simp only [List.map_cons, List.sum_cons]
    ring

theorem totalBy_applyFrags_miss (p : StockBatch → Bool)
    (hp : ∀ b q, p (applyFragment b q) = p b)
    (frags : List (StockBatch × ℚ)) (bs : List StockBatch)
    (hw : ∀ pr ∈ frags, ∀ b ∈ bs, b.id = pr.1.id → p b = false) :
    totalBy p (applyFrags frags bs) = totalBy p bs := by
  induction frags generalizing bs with
  | nil => rfl
  | cons pr prs ih =>
    have h1 : applyFrags (pr :: prs) bs = applyFrags prs (decBatch bs pr.1.id pr.2) := rfl
    rw [h1, ih (decBatch bs pr.1.id pr.2)
        (by
          intro pr' hpr' b' hb' hbid
          simp only [decBatch, List.mem_map] at hb'
          obtain ⟨b, hb, rfl⟩ := hb'
          by_cases hc : b.id == pr.1.id
          · rw [if_pos hc, hp]
            refine hw pr' (List.mem_cons_of_mem _ hpr') b hb ?_
            rw [if_pos hc, applyFragment_id] at hbid
            exact hbid
          · rw [if_neg hc]
            refine hw pr' (List.mem_cons_of_mem _ hpr') b hb ?_
            rw [if_neg hc] at hbid
            exact hbid),
      totalBy_decBatch_miss p hp bs pr.1.id pr.2
        (fun b hb => hw pr (List.mem_cons_self _ _) b hb)]

/-! ### The eligibility query -/

theorem eligible_perm (bs : List StockBatch) (sku : String) (loc : Option String) :
    List.Perm (eligible bs sku loc) (bs.filter (eligiblePred sku loc)) :=
  List.perm_insertionSort _ _

theorem eligible_sorted (bs : List StockBatch) (sku : String) (loc : Option String) :
    List.Sorted arrivalLe (eligible bs sku loc) :=
  List.sorted_insertionSort _ _

theorem mem_eligible (bs : List StockBatch) (sku : String) (loc : Option String)
    (b : StockBatch) :
    b ∈ eligible bs sku loc ↔ b ∈ bs ∧ eligiblePred sku loc b := by
  rw [(eligible_perm bs sku loc).mem_iff, List.mem_filter]

theorem eligible_subset (bs : List StockBatch) (sku : String) (loc : Option String) :
    ∀ b ∈ eligible bs sku loc, b ∈ bs :=
  fun b hb => ((mem_eligible bs sku loc b).mp hb).1

theorem eligible_pos (bs : List StockBatch) (sku : String) (loc : Option String) :
    ∀ b ∈ eligible bs sku loc, 0 < b.remaining_quantity := by
  intro b hb
  have h := ((mem_eligible bs sku loc b).mp hb).2
  simp only [eligiblePred, Bool.and_eq_true, decide_eq_true_eq] at h
  exact h.1.2

theorem eligible_sku (bs : List StockBatch) (sku : String) (loc : Option String) :
    ∀ b ∈ eligible bs sku loc, b.sku = sku := by
  intro b hb
  have h := ((mem_eligible bs sku loc b).mp hb).2
  simp only [eligiblePred, Bool.and_eq_true, beq_iff_eq] at h
  exact h.1.1

theorem eligible_loc (bs : List StockBatch) (sku l : String) :
    ∀ b ∈ eligible bs sku (some l), b.location = some l := by
  intro b hb
  have h := ((mem_eligible bs sku (some l) b).mp hb).2
  simp only [eligiblePred, Bool.and_eq_true, beq_iff_eq] at h
  exact h.2

theorem eligible_ids_nodup (bs : List StockBatch) (sku : String)
    (loc : Option String) (h : (bs.map (·.id)).Nodup) :
    ((eligible bs sku loc).map (·.id)).Nodup := by
  have h1 : ((bs.filter (eligiblePred sku loc)).map (·.id)).Nodup :=
    ((List.filter_sublist bs).map (·.id)).nodup h
  exact (((eligible_perm bs sku loc).map (·.id)).nodup_iff).mpr h1

theorem frags_ids_nodup (bs : List StockBatch) (sku : String)
    (loc : Option String) (amt : ℚ) (h : (bs.map (·.id)).Nodup) :
    ((fifoFragments amt (eligible bs sku loc)).map (fun p => p.1.id)).Nodup := by
  have hpre := fifoFragments_map_fst_prefix amt (eligible bs sku loc)
  simpa [List.map_map, Function.comp] using
    (hpre.sublist.map (·.id)).nodup (eligible_ids_nodup bs sku loc h)

/-! ### Elimination of the two return paths of `allocate_stock_fifo` -/

theorem allocate_ok_elim (db : DB) (sku : String) (amt : ℚ) (loc : Option String)
    (o : Option MovementOrigin) (r cb : Option String)
    (allocs : List AllocEntry) (db' : DB)
    (hok : allocate_stock_fifo db sku amt loc o r cb = (.ok allocs, db')) :
    amt ≤ ((eligible db.batches sku loc).map (·.remaining_quantity)).sum ∧
    allocs = (fifoFragments amt (eligible db.batches sku loc)).map
      (fun p => mkAllocEntry p.1 p.2) ∧
    db' = { db with
      batches := applyFrags (fifoFragments amt (eligible db.batches sku loc)) db.batches
      movements := db.movements ++
        (fifoFragments amt (eligible db.batches sku loc)).map
          (fun p => consumptionMovement o r cb p.1 p.2) } := by
  simp only [allocate_stock_fifo] at hok
  by_cases h : ((eligible db.batches sku loc).map (·.remaining_quantity)).sum < amt
  · rw [if_pos h] at hok
    exact absurd hok (by simp)
  · rw [if_neg h] at hok
    simp only [Prod.mk.injEq, Except.ok.injEq] at hok
    exact ⟨not_lt.mp h, hok.1.symm, hok.2.symm⟩

theorem allocate_error_elim (db : DB) (sku : String) (amt : ℚ)
    (loc : Option String) (o : Option MovementOrigin) (r cb : Option String)
    (e : InsufficientStockError) (db' : DB)
    (herr : allocate_stock_fifo db sku amt loc o r cb = (.error e, db')) :
    ((eligible db.batches sku loc).map (·.remaining_quantity)).sum < amt ∧
    e = ⟨sku, amt, ((eligible db.batches sku loc).map (·.remaining_quantity)).sum⟩ ∧
    db' = db := by
  simp only [allocate_stock_fifo] at herr
  by_cases h : ((eligible db.batches sku loc).map (·.remaining_quantity)).sum < amt
  · rw [if_pos h] at herr
    simp only [Prod.mk.injEq, Except.error.injEq] at herr
    exact ⟨h, herr.1.symm, herr.2.symm⟩
  · rw [if_neg h] at herr
    exact absurd herr (by simp)

theorem allocate_error_cond (db : DB) (sku : String) (amt : ℚ)
    (loc : Option String) (o : Option MovementOrigin) (r cb : Option String)
    (h : ((eligible db.batches sku loc).map (·.remaining_quantity)).sum < amt) :
    allocate_stock_fifo db sku amt loc o r cb =
      (.error ⟨sku, amt, ((eligible db.batches sku loc).map (·.remaining_quantity)).sum⟩,
       db) := by
  simp only [allocate_stock_fifo]
  rw [if_pos h]

theorem allocs_quantities (frags : List (StockBatch × ℚ)) :
    ((frags.map (fun p => mkAllocEntry p.1 p.2)).map (·.quantity)) =
      frags.map Prod.snd := by
  rw [List.map_map]
  rfl

/-! ### Aggregate facts about a successful allocation -/

theorem frag_batch_mem (bs : List StockBatch) (sku : String) (loc : Option String)
    (amt : ℚ) :
    ∀ p ∈ fifoFragments amt (eligible bs sku loc),
      p.1 ∈ bs ∧ p.1.sku = sku ∧ 0 < p.2 ∧ p.2 ≤ p.1.remaining_quantity := by
  intro p hp
  have hm := fifoFragments_mem amt (eligible bs sku loc)
    (eligible_pos bs sku loc) p hp
  exact ⟨eligible_subset bs sku loc p.1 hm.1, eligible_sku bs sku loc p.1 hm.1,
    hm.2.1, hm.2.2⟩

theorem allocate_ok_ids (db : DB) (sku : String) (amt : ℚ) (loc : Option String)
    (o : Option MovementOrigin) (r cb : Option String)
    (allocs : List AllocEntry) (db' : DB)
    (hok : allocate_stock_fifo db sku amt loc o r cb = (.ok allocs, db')) :
    db'.batches.map (·.id) = db.batches.map (·.id) := by
  obtain ⟨-, -, h3⟩ := allocate_ok_elim db sku amt loc o r cb allocs db' hok
  rw [h3]
  show (applyFrags _ db.batches).map (·.id) = _
  rw [applyFrags_eq_map, List.map_map]
  exact List.map_congr_left (fun b _ => applyChain_id _ b)

theorem allocate_ok_transfers (db : DB) (sku : String) (amt : ℚ)
    (loc : Option String) (o : Option MovementOrigin) (r cb : Option String)
    (allocs : List AllocEntry) (db' : DB)
    (hok : allocate_stock_fifo db sku amt loc o r cb = (.ok allocs, db')) :
    db'.transfers = db.transfers ∧ db'.nextBatchId = db.nextBatchId ∧
      db'.nextTransferId = db.nextTransferId := by
  obtain ⟨-, -, h3⟩ := allocate_ok_elim db sku amt loc o r cb allocs db' hok
  rw [h3]
  exact ⟨rfl, rfl, rfl⟩

theorem allocate_ok_totalSku (db : DB) (sku : String) (amt : ℚ)
    (loc : Option String) (o : Option MovementOrigin) (r cb : Option String)
    (allocs : List AllocEntry) (db' : DB)
    (hwf : (db.batches.map (·.id)).Nodup)
    (hok : allocate_stock_fifo db sku amt loc o r cb = (.ok allocs, db')) :
    totalSku db'.batches sku = totalSku db.batches sku -
      (allocs.map (·.quantity)).sum := by
  obtain ⟨-, h2, h3⟩ := allocate_ok_elim db sku amt loc o r cb allocs db' hok
  rw [h3, h2, allocs_quantities]
  refine totalBy_applyFrags_hit (fun b => b.sku == sku) (fun b q => rfl) _ _ hwf ?_
  intro pr hpr
  obtain ⟨hmem, hsku, -, -⟩ := frag_batch_mem db.batches sku loc amt pr hpr
  exact ⟨pr.1, hmem, rfl, beq_iff_eq.mpr hsku⟩

theorem allocate_ok_totalSkuLoc (db : DB) (sku fl : String) (amt : ℚ)
    (o : Option MovementOrigin) (r cb : Option String)
    (allocs : List AllocEntry) (db' : DB)
    (hwf : (db.batches.map (·.id)).Nodup)
    (hok : allocate_stock_fifo db sku amt (some fl) o r cb = (.ok allocs, db')) :
    totalSkuLoc db'.batches sku fl = totalSkuLoc db.batches sku fl -
      (allocs.map (·.quantity)).sum := by
  obtain ⟨-, h2, h3⟩ := allocate_ok_elim db sku amt (some fl) o r cb allocs db' hok
  rw [h3, h2, allocs_quantities]
  refine totalBy_applyFrags_hit (fun b => b.sku == sku && b.location == some fl)
    (fun b q => rfl) _ _ hwf ?_
  intro pr hpr
  obtain ⟨hmem, hsku, -, -⟩ := frag_batch_mem db.batches sku (some fl) amt pr hpr
  have hfrag := fifoFragments_mem amt (eligible db.batches sku (some fl))
    (eligible_pos db.batches sku (some fl)) pr hpr
  have hloc := eligible_loc db.batches sku fl pr.1 hfrag.1
  refine ⟨pr.1, hmem, rfl, ?_⟩
  simp [hsku, hloc]

theorem allocate_ok_totalSkuLoc_other (db : DB) (sku fl tl : String) (amt : ℚ)
    (o : Option MovementOrigin) (r cb : Option String)
    (allocs : List AllocEntry) (db' : DB)
    (hwf : (db.batches.map (·.id)).Nodup)
    (hne : fl ≠ tl)
    (hok : allocate_stock_fifo db sku amt (some fl) o r cb = (.ok allocs, db')) :
    totalSkuLoc db'.batches sku tl = totalSkuLoc db.batches sku tl := by
  obtain ⟨-, -, h3⟩ := allocate_ok_elim db sku amt (some fl) o r cb allocs db' hok
  rw [h3]
  refine totalBy_applyFrags_miss (fun b => b.sku == sku && b.location == some tl)
    (fun b q => rfl) _ _ ?_
  intro pr hpr b hb hbid
  have hfrag := fifoFragments_mem amt (eligible db.batches sku (some fl))
    (eligible_pos db.batches sku (some fl)) pr hpr
  have hmem := eligible_subset db.batches sku (some fl) pr.1 hfrag.1
  have hloc := eligible_loc db.batches sku fl pr.1 hfrag.1
  have hbeq : b = pr.1 :=
    List.inj_on_of_nodup_map hwf hb hmem hbid
  subst hbeq
  have hfalse : (pr.1.location == some tl) = false := by
    rw [hloc]
    refine beq_eq_false_iff_ne.mpr ?_
    simpa using hne
  show (pr.1.sku == sku && pr.1.location == some tl) = false
  rw [hfalse, Bool.and_false]

theorem eligiblePred_eq_skuLocPred (sku : String) (loc : Option String)
    (b : StockBatch) :
    eligiblePred sku loc b =
      (skuLocPred sku loc b && decide (0 < b.remaining_quantity)) := by
  simp only [eligiblePred, skuLocPred]
  cases hs : b.sku == sku <;>
    cases hr : decide (0 < b.remaining_quantity) <;>
    cases hl : (match loc with
                | none => true
                | some l => b.location == some l) <;>
    simp [hs, hr, hl]

theorem totalSkuAt_eq_eligible_sum (sku : String) (loc : Option String) :
    ∀ bs : List StockBatch, (∀ b ∈ bs, 0 ≤ b.remaining_quantity) →
      totalSkuAt bs sku loc =
        ((eligible bs sku loc).map (·.remaining_quantity)).sum := by
  have hfil : ∀ bs : List StockBatch, (∀ b ∈ bs, 0 ≤ b.remaining_quantity) →
      totalSkuAt bs sku loc =
        ((bs.filter (eligiblePred sku loc)).map (·.remaining_quantity)).sum := by
    intro bs
    induction bs with
    | nil => intro; rfl
    | cons b rest ih =>
      intro hb
      have hcons : totalSkuAt (b :: rest) sku loc =
          (if skuLocPred sku loc b then b.remaining_quantity else 0) +
            totalSkuAt rest sku loc :=
        totalBy_cons _ b rest
      rw [hcons, ih (fun c hc => hb c (List.mem_cons_of_mem _ hc)),
        List.filter_cons, eligiblePred_eq_skuLocPred]
      by_cases hp : skuLocPred sku loc b = true
      · by_cases hr : 0 < b.remaining_quantity
        · rw [hp, decide_eq_true hr]
          simp
        · have hz : b.remaining_quantity = 0 :=
            le_antisymm (not_lt.mp hr) (hb b (List.mem_cons_self _ _))
          rw [hp, hz]
          simp
      · have hp' : skuLocPred sku loc b = false :=
          Bool.eq_false_iff.mpr hp
        rw [hp']
        simp
  intro bs hb
  rw [hfil bs hb,
    ((eligible_perm bs sku loc).map (·.remaining_quantity)).sum_eq]

theorem allocate_ok_totalSkuAt (db : DB) (sku : String) (amt : ℚ)
    (loc : Option String) (o : Option MovementOrigin) (r cb : Option String)
    (allocs : List AllocEntry) (db' : DB)
    (hwf : (db.batches.map (·.id)).Nodup)
    (hok : allocate_stock_fifo db sku amt loc o r cb = (.ok allocs, db')) :
    totalSkuAt db'.batches sku loc = totalSkuAt db.batches sku loc -
      (allocs.map (·.quantity)).sum := by
  obtain ⟨-, h2, h3⟩ := allocate_ok_elim db sku amt loc o r cb allocs db' hok
  rw [h3, h2, allocs_quantities]
  refine totalBy_applyFrags_hit (skuLocPred sku loc) (fun b q => rfl) _ _ hwf ?_
  intro pr hpr
  obtain ⟨hmem, hsku, -, -⟩ := frag_batch_mem db.batches sku loc amt pr hpr
  have hel := (fifoFragments_mem amt _ (eligible_pos db.batches sku loc) pr hpr).1
  refine ⟨pr.1, hmem, rfl, ?_⟩
  cases loc with
  | none => simp [skuLocPred, hsku]
  | some l =>
    have hloc := eligible_loc db.batches sku l pr.1 hel
    simp [skuLocPred, hsku, hloc]

theorem allocate_ok_sum (db : DB) (sku : String) (amt : ℚ) (loc : Option String)
    (o : Option MovementOrigin) (r cb : Option String)
    (allocs : List AllocEntry) (db' : DB) (h0 : 0 ≤ amt)
    (hok : allocate_stock_fifo db sku amt loc o r cb = (.ok allocs, db')) :
    (allocs.map (·.quantity)).sum = amt := by
  obtain ⟨h1, h2, -⟩ := allocate_ok_elim db sku amt loc o r cb allocs db' hok
  rw [h2, allocs_quantities]
  exact fifoFragments_sum amt _ h0 h1 (eligible_pos db.batches sku loc)

theorem allocate_ok_sum_nonneg (db : DB) (sku : String) (amt : ℚ)
    (loc : Option String) (o : Option MovementOrigin) (r cb : Option String)
    (allocs : List AllocEntry) (db' : DB)
    (hok : allocate_stock_fifo db sku amt loc o r cb = (.ok allocs, db')) :
    0 ≤ (allocs.map (·.quantity)).sum := by
  obtain ⟨-, h2, -⟩ := allocate_ok_elim db sku amt loc o r cb allocs db' hok
  rw [h2, allocs_quantities]
  exact fifoFragments_snd_nonneg amt _ (eligible_pos db.batches sku loc)

theorem allocate_ok_bounds (db : DB) (sku : String) (amt : ℚ)
    (loc : Option String) (o : Option MovementOrigin) (r cb : Option String)
    (allocs : List AllocEntry) (db' : DB)
    (hwf : (db.batches.map (·.id)).Nodup)
    (hok : allocate_stock_fifo db sku amt loc o r cb = (.ok allocs, db'))
    (hb : ∀ b ∈ db.batches, batchBounds b) :
    ∀ b' ∈ db'.batches, batchBounds b' := by
  obtain ⟨-, -, h3⟩ := allocate_ok_elim db sku amt loc o r cb allocs db' hok
  rw [h3]
  show ∀ b' ∈ applyFrags _ db.batches, batchBounds b'
  rw [applyFrags_eq_map]
  intro b' hb'
  obtain ⟨b, hbm, rfl⟩ := List.mem_map.mp hb'
  by_cases hmatch : ∃ pr ∈ fifoFragments amt (eligible db.batches sku loc),
      pr.1.id = b.id
  · obtain ⟨pr, hpr, hid⟩ := hmatch
    obtain ⟨hmem, -, hpos, hle⟩ := frag_batch_mem db.batches sku loc amt pr hpr
    have hbeq : pr.1 = b := List.inj_on_of_nodup_map hwf hmem hbm hid
    rw [applyChain_single _ b pr (frags_ids_nodup db.batches sku loc amt hwf)
      hpr hid.symm]
    constructor
    · show 0 ≤ b.remaining_quantity - pr.2
      rw [← hbeq]
      linarith
    · show b.remaining_quantity - pr.2 ≤ b.initial_quantity
      have := (hb b hbm).2
      linarith
  · push_neg at hmatch
    rw [applyChain_eq_self _ b hmatch]
    exact hb b hbm

theorem allocate_ok_mono (db : DB) (sku : String) (amt : ℚ)
    (loc : Option String) (o : Option MovementOrigin) (r cb : Option String)
    (allocs : List AllocEntry) (db' : DB)
    (hwf : (db.batches.map (·.id)).Nodup)
    (hok : allocate_stock_fifo db sku amt loc o r cb = (.ok allocs, db')) :
    ∀ b' ∈ db'.batches, ∀ b ∈ db.batches, b'.id = b.id →
      b'.remaining_quantity ≤ b.remaining_quantity := by
  obtain ⟨-, -, h3⟩ := allocate_ok_elim db sku amt loc o r cb allocs db' hok
  rw [h3]
  show ∀ b' ∈ applyFrags _ db.batches, _
  rw [applyFrags_eq_map]
  intro b' hb' b hbm hid
  obtain ⟨b0, hb0, rfl⟩ := List.mem_map.mp hb'
  rw [applyChain_id] at hid
  have hbeq : b0 = b := List.inj_on_of_nodup_map hwf hb0 hbm hid
  subst hbeq
  refine applyChain_remaining_le _ b0 ?_
  intro pr hpr
  exact le_of_lt (frag_batch_mem db.batches sku loc amt pr hpr).2.2.1

theorem allocate_ok_per_frag (db : DB) (sku : String) (amt : ℚ)
    (loc : Option String) (o : Option MovementOrigin) (r cb : Option String)
    (allocs : List AllocEntry) (db' : DB)
    (hwf : (db.batches.map (·.id)).Nodup)
    (hok : allocate_stock_fifo db sku amt loc o r cb = (.ok allocs, db')) :
    ∀ p ∈ fifoFragments amt (eligible db.batches sku loc),
      ∃ b' ∈ db'.batches, b'.id = p.1.id ∧
        b'.remaining_quantity = p.1.remaining_quantity - p.2 ∧
        (b'.remaining_quantity = 0 → b'.is_allocated = true) := by
  obtain ⟨-, -, h3⟩ := allocate_ok_elim db sku amt loc o r cb allocs db' hok
  intro p hp
  obtain ⟨hmem, -, -, -⟩ := frag_batch_mem db.batches sku loc amt p hp
  have hchain := applyChain_single (fifoFragments amt (eligible db.batches sku loc))
    p.1 p (frags_ids_nodup db.batches sku loc amt hwf) hp rfl
  refine ⟨applyChain (fifoFragments amt (eligible db.batches sku loc)) p.1, ?_, ?_, ?_, ?_⟩
  · rw [h3]
    show _ ∈ applyFrags _ db.batches
    rw [applyFrags_eq_map]
    exact List.mem_map_of_mem _ hmem
  · rw [applyChain_id]
  · rw [hchain]
    rfl
  · rw [hchain]
    intro hz
    have hz' : p.1.remaining_quantity - p.2 = 0 := hz
    show (if p.1.remaining_quantity - p.2 = 0 then true else p.1.is_allocated) = true
    rw [if_pos hz']

theorem allocate_ok_untouched (db : DB) (sku : String) (amt : ℚ)
    (loc : Option String) (o : Option MovementOrigin) (r cb : Option String)
    (allocs : List AllocEntry) (db' : DB)
    (hok : allocate_stock_fifo db sku amt loc o r cb = (.ok allocs, db')) :
    ∀ b ∈ db.batches,
      (∀ p ∈ fifoFragments amt (eligible db.batches sku loc), p.1.id ≠ b.id) →
      b ∈ db'.batches := by
  obtain ⟨-, -, h3⟩ := allocate_ok_elim db sku amt loc o r cb allocs db' hok
  intro b hbm hno
  rw [h3]
  show b ∈ applyFrags _ db.batches
  rw [applyFrags_eq_map]
  have := applyChain_eq_self (fifoFragments amt (eligible db.batches sku loc)) b hno
  exact this ▸ List.mem_map_of_mem _ hbm

/-! ### The destination loop of a transfer -/

theorem addDest_spec (tid : Nat) (sku tl fl : String) (now : Nat)
    (cb : Option String) :
    ∀ (allocs : List AllocEntry) (d : DB),
      ∃ nbs : List StockBatch,
        (addDestBatches tid sku tl fl now cb d allocs).batches = d.batches ++ nbs ∧
        (addDestBatches tid sku tl fl now cb d allocs).transfers = d.transfers ∧
        (addDestBatches tid sku tl fl now cb d allocs).nextTransferId =
          d.nextTransferId ∧
        (nbs.map (·.remaining_quantity)).sum = (allocs.map (·.quantity)).sum ∧
        (allocs = [] → nbs = []) ∧
        (allocs ≠ [] → nbs ≠ []) ∧
        ∀ nb ∈ nbs, nb.sku = sku ∧ nb.location = some tl ∧
          nb.arrival_date = now ∧
          nb.remaining_quantity = nb.initial_quantity ∧
          d.nextBatchId ≤ nb.id ∧
          ∃ a ∈ allocs, nb.remaining_quantity = a.quantity ∧
            nb.unit_cost = a.unit_cost := by
  intro allocs
  induction allocs with
  | nil =>
    intro d
    exact ⟨[], by simp [addDestBatches], rfl, rfl, by simp, fun _ => rfl,
      fun h => absurd rfl h, by simp⟩
  | cons a as ih =>
    intro d
    obtain ⟨nbs, h1, h2, h3, h4, -, -, h7⟩ := ih
      { d with
        batches := d.batches ++ [mkDestBatch tid sku tl now d.nextBatchId a]
        movements := d.movements ++
          [transferMovement tid sku fl tl cb d.nextBatchId a]
        nextBatchId := d.nextBatchId + 1 }
    refine ⟨mkDestBatch tid sku tl now d.nextBatchId a :: nbs, ?_, h2, h3, ?_,
      ?_, ?_, ?_⟩
    · show (addDestBatches tid sku tl fl now cb _ as).batches = _
      rw [h1]
      simp
    · simp only [List.map_cons, List.sum_cons, h4]
      rfl
    · intro h
      exact absurd h (List.cons_ne_nil a as)
    · intro
      exact List.cons_ne_nil _ _
    · intro nb hnb
      rcases List.mem_cons.mp hnb with rfl | hnb'
      · exact ⟨rfl, rfl, rfl, rfl, le_rfl,
          a, List.mem_cons_self a as, rfl, rfl⟩
      · obtain ⟨g1, g2, g3, g4, g5, aw, haw, g6, g7⟩ := h7 nb hnb'
        exact ⟨g1, g2, g3, g4, le_trans (Nat.le_succ _) g5,
          aw, List.mem_cons_of_mem _ haw, g6, g7⟩

/-! ### Elimination of the two return paths of `transfer_stock` -/

theorem transfer_ok_elim (db : DB) (sku : String) (q : ℚ) (fl tl : String)
    (now : Nat) (rb n : Option String) (t : StockTransfer) (db' : DB)
    (hok : transfer_stock db sku q fl tl now rb n = (.ok t, db')) :
    ∃ allocs db2,
      allocate_stock_fifo
        { db with
          transfers := db.transfers ++
            [pendingTransfer db.nextTransferId sku q fl tl now rb n]
          nextTransferId := db.nextTransferId + 1 }
        sku q (some fl) (some MovementOrigin.TRANSFER)
        (some ("Transfer #" ++ toString db.nextTransferId)) rb =
          (.ok allocs, db2) ∧
      t = completedTransfer (pendingTransfer db.nextTransferId sku q fl tl now rb n)
        allocs now rb ∧
      db' = { addDestBatches db.nextTransferId sku tl fl now rb db2 allocs with
              transfers :=
                (addDestBatches db.nextTransferId sku tl fl now rb db2 allocs).transfers.map
                  (fun tr => if tr.id == db.nextTransferId then t else tr) } := by
  simp only [transfer_stock] at hok
  split at hok
  · exact absurd hok (by simp)
  · rename_i allocs db2 heq
    simp only [Prod.mk.injEq, Except.ok.injEq] at hok
    exact ⟨allocs, db2, heq, hok.1.symm, by rw [← hok.1, ← hok.2]⟩

theorem transfer_error_elim (db : DB) (sku : String) (q : ℚ) (fl tl : String)
    (now : Nat) (rb n : Option String) (e : InsufficientStockError) (db' : DB)
    (herr : transfer_stock db sku q fl tl now rb n = (.error e, db')) :
    ((eligible db.batches sku (some fl)).map (·.remaining_quantity)).sum < q ∧
    e = ⟨sku, q,
      ((eligible db.batches sku (some fl)).map (·.remaining_quantity)).sum⟩ ∧
    db' = { db with
      transfers := db.transfers ++
        [pendingTransfer db.nextTransferId sku q fl tl now rb n]
      nextTransferId := db.nextTransferId + 1 } := by
  simp only [transfer_stock] at herr
  split at herr
  · rename_i e0 dbe heq
    simp only [Prod.mk.injEq, Except.error.injEq] at herr
    obtain ⟨g1, g2, g3⟩ := allocate_error_elim _ sku q (some fl) _ _ rb e0 dbe heq
    rw [herr.1] at g2
    rw [herr.2] at g3
    exact ⟨g1, g2, g3⟩
  · exact absurd herr (by simp)

theorem transfer_error_cond (db : DB) (sku : String) (q : ℚ) (fl tl : String)
    (now : Nat) (rb n : Option String)
    (h : ((eligible db.batches sku (some fl)).map (·.remaining_quantity)).sum < q) :
    transfer_stock db sku q fl tl now rb n =
      (.error ⟨sku, q,
        ((eligible db.batches sku (some fl)).map (·.remaining_quantity)).sum⟩,
       { db with
         transfers := db.transfers ++
           [pendingTransfer db.nextTransferId sku q fl tl now rb n]
         nextTransferId := db.nextTransferId + 1 }) := by
  simp only [transfer_stock]
  have hc := allocate_error_cond
    { db with
      transfers := db.transfers ++
        [pendingTransfer db.nextTransferId sku q fl tl now rb n]
      nextTransferId := db.nextTransferId + 1 }
    sku q (some fl) (some MovementOrigin.TRANSFER)
    (some ("Transfer #" ++ toString db.nextTransferId)) rb (by exact h)
  rw [hc]

/-! ### Elimination lemmas for the API handlers -/

theorem consume_ok_elim (db : DB) (bid : Nat) (q : ℚ) (u : String) (db' : DB)
    (hok : consume_stock_batch db bid q u = .ok db') :
    0 < q ∧ ∃ sb, db.batches.find? (fun b => b.id == bid) = some sb ∧
      q ≤ sb.remaining_quantity ∧
      db' = { db with
        batches := db.batches.map (fun b =>
          if b.id == bid then
            { b with remaining_quantity := b.remaining_quantity - q }
          else b) } := by
  simp only [consume_stock_batch] at hok
  split at hok
  · exact absurd hok (by simp)
  · rename_i hq
    split at hok
    · exact absurd hok (by simp)
    · rename_i sb hfind
      split at hok
      · exact absurd hok (by simp)
      · split at hok
        · exact absurd hok (by simp)
        · rename_i hum hrem
          simp only [Except.ok.injEq] at hok
          exact ⟨lt_of_not_le hq, sb, hfind, not_lt.mp hrem, hok.symm⟩

theorem receive_ok_elim (db : DB) (s : StockBatchCreate) (now : Nat)
    (nb : StockBatch) (db' : DB)
    (hok : receive_stock db s now = .ok (nb, db')) :
    0 < s.quantity ∧ 0 < s.unit_cost ∧
    nb.id = db.nextBatchId ∧
    nb.initial_quantity = s.quantity ∧ nb.remaining_quantity = s.quantity ∧
    db' = { db with
      batches := db.batches ++ [nb]
      nextBatchId := db.nextBatchId + 1 } := by
  simp only [receive_stock] at hok
  split at hok
  · exact absurd hok (by simp)
  · rename_i hneg
    push_neg at hneg
    simp only [Except.ok.injEq, Prod.mk.injEq] at hok
    refine ⟨hneg.1, hneg.2, ?_, ?_, ?_, ?_⟩
    · rw [← hok.1]
    · rw [← hok.1]
    · rw [← hok.1]
    · rw [← hok.2, ← hok.1]

/-! ### Preservation of well-formedness -/

theorem allocate_ok_WF (db : DB) (sku : String) (amt : ℚ) (loc : Option String)
    (o : Option MovementOrigin) (r cb : Option String)
    (allocs : List AllocEntry) (db' : DB)
    (hok : allocate_stock_fifo db sku amt loc o r cb = (.ok allocs, db'))
    (hwf : WF db) : WF db' := by
  have hids := allocate_ok_ids db sku amt loc o r cb allocs db' hok
  obtain ⟨-, hnext, -⟩ := allocate_ok_transfers db sku amt loc o r cb allocs db' hok
  constructor
  · rw [hids]
    exact hwf.1
  · intro b hb
    have hmem : b.id ∈ db.batches.map (·.id) := by
      rw [← hids]
      exact List.mem_map_of_mem _ hb
    obtain ⟨b0, hb0, hbid⟩ := List.mem_map.mp hmem
    rw [hnext, ← hbid]
    exact hwf.2 b0 hb0

theorem allocate_ok_dbBounds (db : DB) (sku : String) (amt : ℚ)
    (loc : Option String) (o : Option MovementOrigin) (r cb : Option String)
    (allocs : List AllocEntry) (db' : DB)
    (hok : allocate_stock_fifo db sku amt loc o r cb = (.ok allocs, db'))
    (hwf : WF db) (hb : dbBounds db) : dbBounds db' :=
  allocate_ok_bounds db sku amt loc o r cb allocs db' hwf.1 hok hb

/-! ### Serialized concurrent allocations -/

theorem grantedSum_cons_some (x : ℚ) (rs : List (Option ℚ)) :
    grantedSum (some x :: rs) = x + grantedSum rs := by
  simp [grantedSum]

theorem grantedSum_cons_none (rs : List (Option ℚ)) :
    grantedSum (none :: rs) = grantedSum rs := by
  simp [grantedSum]

theorem runAllocs_ind (sku : String) (loc : Option String) :
    ∀ (reqs : List ℚ) (db : DB), WF db → dbBounds db →
      WF (runAllocs sku loc db reqs).1 ∧
      dbBounds (runAllocs sku loc db reqs).1 ∧
      totalSkuAt (runAllocs sku loc db reqs).1.batches sku loc =
        totalSkuAt db.batches sku loc - grantedSum (runAllocs sku loc db reqs).2 ∧
      totalSku (runAllocs sku loc db reqs).1.batches sku =
        totalSku db.batches sku - grantedSum (runAllocs sku loc db reqs).2 ∧
      0 ≤ grantedSum (runAllocs sku loc db reqs).2 := by
  intro reqs
  induction reqs with
  | nil =>
    intro db hwf hb
    refine ⟨hwf, hb, ?_, ?_, le_rfl⟩
    · show totalSkuAt db.batches sku loc =
        totalSkuAt db.batches sku loc - grantedSum []
      simp [grantedSum]
    · show totalSku db.batches sku = totalSku db.batches sku - grantedSum []
      simp [grantedSum]
  | cons a as ih =>
    intro db hwf hb
    cases hres : allocate_stock_fifo db sku a loc none none none with
    | mk res dbx =>
      cases res with
      | ok allocs =>
        have hrun1 : (runAllocs sku loc db (a :: as)).1 =
            (runAllocs sku loc dbx as).1 := by
          simp only [runAllocs, hres]
        have hrun2 : (runAllocs sku loc db (a :: as)).2 =
            some ((allocs.map (·.quantity)).sum) :: (runAllocs sku loc dbx as).2 := by
          simp only [runAllocs, hres]
        have hwf' := allocate_ok_WF db sku a loc none none none allocs dbx hres hwf
        have hb' := allocate_ok_dbBounds db sku a loc none none none allocs dbx
          hres hwf hb
        have htot := allocate_ok_totalSku db sku a loc none none none allocs dbx
          hwf.1 hres
        have htotAt := allocate_ok_totalSkuAt db sku a loc none none none allocs
          dbx hwf.1 hres
        have hnn := allocate_ok_sum_nonneg db sku a loc none none none allocs
          dbx hres
        obtain ⟨g1, g2, g3, g4, g5⟩ := ih dbx hwf' hb'
        rw [hrun1, hrun2]
        refine ⟨g1, g2, ?_, ?_, ?_⟩
        · rw [grantedSum_cons_some, g3, htotAt]
          ring
        · rw [grantedSum_cons_some, g4, htot]
          ring
        · rw [grantedSum_cons_some]
          linarith
      | error e =>
        obtain ⟨-, -, hdbx⟩ := allocate_error_elim db sku a loc none none none
          e dbx hres
        rw [hdbx] at hres
        have hrun1 : (runAllocs sku loc db (a :: as)).1 =
            (runAllocs sku loc db as).1 := by
          simp only [runAllocs, hres]
        have hrun2 : (runAllocs sku loc db (a :: as)).2 =
            none :: (runAllocs sku loc db as).2 := by
          simp only [runAllocs, hres]
        obtain ⟨g1, g2, g3, g4, g5⟩ := ih db hwf hb
        rw [hrun1, hrun2, grantedSum_cons_none]
        exact ⟨g1, g2, g3, g4, g5⟩

/-! ### Composite facts about transfers -/

theorem totalBy_all_true (p : StockBatch → Bool) (bs : List StockBatch)
    (h : ∀ b ∈ bs, p b = true) :
    totalBy p bs = (bs.map (·.remaining_quantity)).sum := by
  induction bs with
  | nil => rfl
  | cons b rest ih =>
    rw [totalBy_cons, if_pos (h b (List.mem_cons_self _ _)),
      ih (fun c hc => h c (List.mem_cons_of_mem _ hc))]
    simp

theorem totalBy_all_false (p : StockBatch → Bool) (bs : List StockBatch)
    (h : ∀ b ∈ bs, p b = false) : totalBy p bs = 0 := by
  induction bs with
  | nil => rfl
  | cons b rest ih =>
    rw [totalBy_cons, ih (fun c hc => h c (List.mem_cons_of_mem _ hc)),
      h b (List.mem_cons_self _ _)]
    simp

theorem allocate_ok_entries (db : DB) (sku : String) (amt : ℚ)
    (loc : Option String) (o : Option MovementOrigin) (r cb : Option String)
    (allocs : List AllocEntry) (db' : DB)
    (hok : allocate_stock_fifo db sku amt loc o r cb = (.ok allocs, db')) :
    ∀ a ∈ allocs, 0 < a.quantity ∧
      ∃ b ∈ db.batches, b.sku = sku ∧
        (∀ l, loc = some l → b.location = some l) ∧
        a.unit_cost = b.unit_cost ∧ a.batch_id = b.id := by
  obtain ⟨-, h2, -⟩ := allocate_ok_elim db sku amt loc o r cb allocs db' hok
  rw [h2]
  intro a ha
  obtain ⟨p, hp, rfl⟩ := List.mem_map.mp ha
  obtain ⟨hmem, hsku, hpos, -⟩ := frag_batch_mem db.batches sku loc amt p hp
  have hel := (fifoFragments_mem amt _ (eligible_pos db.batches sku loc) p hp).1
  refine ⟨hpos, p.1, hmem, hsku, ?_, rfl, rfl⟩
  intro l hl
  subst hl
  exact eligible_loc db.batches sku l p.1 hel

theorem totalSku_append (xs ys : List StockBatch) (sku : String) :
    totalSku (xs ++ ys) sku = totalSku xs sku + totalSku ys sku :=
  totalBy_append _ xs ys

theorem totalSkuLoc_append (xs ys : List StockBatch) (sku loc : String) :
    totalSkuLoc (xs ++ ys) sku loc = totalSkuLoc xs sku loc + totalSkuLoc ys sku loc :=
  totalBy_append _ xs ys


theorem transfer_ok_spec (db : DB) (sku : String) (q : ℚ) (fl tl : String)
    (now : Nat) (rb n : Option String) (t : StockTransfer) (db' : DB)
    (hwf : WF db) (hq : 0 < q) (hne : fl ≠ tl)
    (hok : transfer_stock db sku q fl tl now rb n = (.ok t, db')) :
    totalSku db'.batches sku = totalSku db.batches sku ∧
    totalSkuLoc db'.batches sku fl = totalSkuLoc db.batches sku fl - q ∧
    totalSkuLoc db'.batches sku tl = totalSkuLoc db.batches sku tl + q ∧
    (∀ nb ∈ db'.batches, db.nextBatchId ≤ nb.id →
      nb.sku = sku ∧ nb.location = some tl ∧ nb.arrival_date = now ∧
      nb.remaining_quantity = nb.initial_quantity ∧
      ∃ src ∈ db.batches, src.sku = sku ∧ src.location = some fl ∧
        nb.unit_cost = src.unit_cost) ∧
    (∃ nb ∈ db'.batches, db.nextBatchId ≤ nb.id) := by
  obtain ⟨allocs, db2, halloc, -, hdb'⟩ :=
    transfer_ok_elim db sku q fl tl now rb n t db' hok
  set db1 : DB :=
    { db with
      transfers := db.transfers ++
        [pendingTransfer db.nextTransferId sku q fl tl now rb n]
      nextTransferId := db.nextTransferId + 1 } with hdb1
  have hb1b : db1.batches = db.batches := rfl
  have hb1n : db1.nextBatchId = db.nextBatchId := rfl
  obtain ⟨nbs, hnb1, -, -, hnbsum, -, hne2, hnbs⟩ :=
    addDest_spec db.nextTransferId sku tl fl now rb allocs db2
  have hbatches : db'.batches = db2.batches ++ nbs := by
    rw [hdb']
    exact hnb1
  have hsum : (allocs.map (·.quantity)).sum = q :=
    allocate_ok_sum db1 sku q (some fl) _ _ rb allocs db2 (le_of_lt hq) halloc
  have hids2 : db2.batches.map (·.id) = db.batches.map (·.id) := by
    rw [allocate_ok_ids db1 sku q (some fl) _ _ rb allocs db2 halloc]
  obtain ⟨-, hnext2, -⟩ :=
    allocate_ok_transfers db1 sku q (some fl) _ _ rb allocs db2 halloc
  have hnext2' : db2.nextBatchId = db.nextBatchId := hnext2
  have hentries := allocate_ok_entries db1 sku q (some fl) _ _ rb allocs db2 halloc
  have hnbs_mem : ∀ nb ∈ nbs, nb.sku = sku ∧ nb.location = some tl ∧
      nb.arrival_date = now ∧ nb.remaining_quantity = nb.initial_quantity ∧
      db.nextBatchId ≤ nb.id ∧
      ∃ a ∈ allocs, nb.remaining_quantity = a.quantity ∧
        nb.unit_cost = a.unit_cost := by
    intro nb hnb
    obtain ⟨g1, g2, g3, g4, g5, g6⟩ := hnbs nb hnb
    exact ⟨g1, g2, g3, g4, hnext2' ▸ g5, g6⟩
  have hnewmem : ∀ nb ∈ db'.batches, db.nextBatchId ≤ nb.id → nb ∈ nbs := by
    intro nb hnb hge
    rw [hbatches] at hnb
    rcases List.mem_append.mp hnb with hnb2 | hnbs'
    · exfalso
      have hmem : nb.id ∈ db.batches.map (·.id) := by
        rw [← hids2]
        exact List.mem_map_of_mem _ hnb2
      obtain ⟨b0, hb0, hbid⟩ := List.mem_map.mp hmem
      have := hwf.2 b0 hb0
      omega
    · exact hnbs'
  have h2tot := allocate_ok_totalSku db1 sku q (some fl)
    (some MovementOrigin.TRANSFER)
    (some ("Transfer #" ++ toString db.nextTransferId)) rb allocs db2
    hwf.1 halloc
  rw [hsum] at h2tot
  have hb1tot : totalSku db1.batches sku = totalSku db.batches sku := rfl
  rw [hb1tot] at h2tot
  refine ⟨?_, ?_, ?_, ?_, ?_⟩
  · rw [hbatches, totalSku_append, h2tot]
    have hnbs_tot : totalSku nbs sku = q := by
      show totalBy _ nbs = q
      rw [totalBy_all_true _ _ (fun b hb => beq_iff_eq.mpr (hnbs_mem b hb).1),
        hnbsum, hsum]
    rw [hnbs_tot]
    ring
  · have h2loc := allocate_ok_totalSkuLoc db1 sku fl q
      (some MovementOrigin.TRANSFER)
      (some ("Transfer #" ++ toString db.nextTransferId)) rb allocs db2
      hwf.1 halloc
    rw [hsum] at h2loc
    have hb1loc : totalSkuLoc db1.batches sku fl = totalSkuLoc db.batches sku fl := rfl
    rw [hb1loc] at h2loc
    rw [hbatches, totalSkuLoc_append, h2loc]
    have hnbs_loc : totalSkuLoc nbs sku fl = 0 := by
      refine totalBy_all_false _ _ ?_
      intro b hb
      have hl := (hnbs_mem b hb).2.1
      have hfalse : (b.location == some fl) = false := by
        rw [hl]
        refine beq_eq_false_iff_ne.mpr ?_
        simpa using fun hc => hne hc.symm
      show (b.sku == sku && b.location == some fl) = false
      rw [hfalse, Bool.and_false]
    rw [hnbs_loc]
    ring
  · have h2loc := allocate_ok_totalSkuLoc_other db1 sku fl tl q
      (some MovementOrigin.TRANSFER)
      (some ("Transfer #" ++ toString db.nextTransferId)) rb allocs db2
      hwf.1 hne halloc
    have hb1loc : totalSkuLoc db1.batches sku tl = totalSkuLoc db.batches sku tl := rfl
    rw [hb1loc] at h2loc
    rw [hbatches, totalSkuLoc_append, h2loc]
    have hnbs_loc : totalSkuLoc nbs sku tl = q := by
      show totalBy _ nbs = q
      rw [totalBy_all_true _ _ ?_, hnbsum, hsum]
      intro b hb
      have h1 := (hnbs_mem b hb).1
      have h2 := (hnbs_mem b hb).2.1
      show (b.sku == sku && b.location == some tl) = true
      rw [h1, h2]
      simp
    rw [hnbs_loc]
  · intro nb hnb hge
    have hnb' := hnewmem nb hnb hge
    obtain ⟨g1, g2, g3, g4, -, a, ha, g6, g7⟩ := hnbs_mem nb hnb'
    obtain ⟨-, src, hsrc, hsku, hsloc, hcost, -⟩ := hentries a ha
    refine ⟨g1, g2, g3, g4, src, hsrc, hsku, hsloc fl rfl, ?_⟩
    rw [g7, hcost]
  · have hallocs_ne : allocs ≠ [] := by
      intro hc
      rw [hc] at hsum
      simp at hsum
      exact absurd hsum.symm (ne_of_gt hq)
    have hnbs_ne := hne2 hallocs_ne
    obtain ⟨nb, hnb⟩ := List.exists_mem_of_ne_nil nbs hnbs_ne
    refine ⟨nb, ?_, (hnbs_mem nb hnb).2.2.2.2.1⟩
    rw [hbatches]
    exact List.mem_append_right _ hnb

/-! ### Per-operation bounds and monotonicity -/

theorem transfer_step_bounds (db : DB) (sku : String) (q : ℚ) (fl tl : String)
    (now : Nat) (rb n : Option String)
    (hwf : WF db) (hb : dbBounds db) :
    (∀ b' ∈ (transfer_stock db sku q fl tl now rb n).2.batches, batchBounds b') ∧
    (∀ b' ∈ (transfer_stock db sku q fl tl now rb n).2.batches,
      ∀ b ∈ db.batches, b'.id = b.id →
        b'.remaining_quantity ≤ b.remaining_quantity) := by
  cases hres : transfer_stock db sku q fl tl now rb n with
  | mk res dbx =>
    cases res with
    | error e =>
      obtain ⟨-, -, hdbx⟩ := transfer_error_elim db sku q fl tl now rb n e dbx hres
      rw [hdbx]
      constructor
      · intro b' hb'
        exact hb b' hb'
      · intro b' hb' b hbm hid
        have hbeq : b' = b := List.inj_on_of_nodup_map hwf.1 hb' hbm hid
        rw [hbeq]
    | ok t =>
      obtain ⟨allocs, db2, halloc, -, hdb'⟩ :=
        transfer_ok_elim db sku q fl tl now rb n t dbx hres
      set db1 : DB :=
        { db with
          transfers := db.transfers ++
            [pendingTransfer db.nextTransferId sku q fl tl now rb n]
          nextTransferId := db.nextTransferId + 1 } with hdb1
      obtain ⟨nbs, hnb1, -, -, -, -, -, hnbs⟩ :=
        addDest_spec db.nextTransferId sku tl fl now rb allocs db2
      have hbatches : dbx.batches = db2.batches ++ nbs := by
        rw [hdb']
        exact hnb1
      obtain ⟨-, hnext2, -⟩ :=
        allocate_ok_transfers db1 sku q (some fl) _ _ rb allocs db2 halloc
      have hentries := allocate_ok_entries db1 sku q (some fl) _ _ rb allocs
        db2 halloc
      have h2bounds : ∀ b' ∈ db2.batches, batchBounds b' :=
        allocate_ok_bounds db1 sku q (some fl) _ _ rb allocs db2 hwf.1 halloc hb
      have h2mono := allocate_ok_mono db1 sku q (some fl) _ _ rb allocs db2
        hwf.1 halloc
      have hids2 : db2.batches.map (·.id) = db.batches.map (·.id) :=
        allocate_ok_ids db1 sku q (some fl) _ _ rb allocs db2 halloc
      constructor
      · intro b' hb'
        rw [hbatches] at hb'
        rcases List.mem_append.mp hb' with h2 | hnb
        · exact h2bounds b' h2
        · obtain ⟨-, -, -, g4, -, a, ha, g6, -⟩ := hnbs b' hnb
          obtain ⟨hapos, -⟩ := hentries a ha
          constructor
          · rw [g6]
            exact le_of_lt hapos
          · exact le_of_eq g4
      · intro b' hb' b hbm hid
        rw [hbatches] at hb'
        rcases List.mem_append.mp hb' with h2 | hnb
        · exact h2mono b' h2 b hbm hid
        · exfalso
          obtain ⟨-, -, -, -, g5, -⟩ := hnbs b' hnb
          rw [hnext2] at g5
          have hb1n : db1.nextBatchId = db.nextBatchId := rfl
          have := hwf.2 b hbm
          omega

theorem consume_bounds_mono (db : DB) (bid : Nat) (q : ℚ) (u : String)
    (db' : DB) (hwf : WF db) (hb : dbBounds db)
    (hok : consume_stock_batch db bid q u = .ok db') :
    (∀ b' ∈ db'.batches, batchBounds b') ∧
    (∀ b' ∈ db'.batches, ∀ b ∈ db.batches, b'.id = b.id →
      b'.remaining_quantity ≤ b.remaining_quantity) := by
  obtain ⟨hq, sb, hfind, hrem, hdb'⟩ := consume_ok_elim db bid q u db' hok
  have hsb_mem : sb ∈ db.batches := List.mem_of_find?_eq_some hfind
  have hsb_id : sb.id = bid := by
    have := List.find?_some hfind
    simpa using this
  have hkey : ∀ b ∈ db.batches, b.id = bid → b = sb := by
    intro b hbm hbid
    exact List.inj_on_of_nodup_map hwf.1 hbm hsb_mem (by rw [hbid, hsb_id])
  rw [hdb']
  constructor
  · intro b' hb'
    obtain ⟨b, hbm, rfl⟩ := List.mem_map.mp hb'
    by_cases hc : b.id = bid
    · rw [if_pos (by simpa using hc)]
      have hbeq : b = sb := hkey b hbm hc
      subst hbeq
      constructor
      · show 0 ≤ b.remaining_quantity - q
        linarith
      · show b.remaining_quantity - q ≤ b.initial_quantity
        have := (hb b hbm).2
        linarith
    · rw [if_neg (by simpa using hc)]
      exact hb b hbm
  · intro b' hb' b hbm hid
    obtain ⟨b0, hb0, rfl⟩ := List.mem_map.mp hb'
    by_cases hc : b0.id = bid
    · rw [if_pos (by simpa using hc)] at hid ⊢
      have hbeq : b0 = b := by
        refine List.inj_on_of_nodup_map hwf.1 hb0 hbm ?_
        exact hid
      subst hbeq
      show b0.remaining_quantity - q ≤ b0.remaining_quantity
      linarith
    · rw [if_neg (by simpa using hc)] at hid ⊢
      have hbeq : b0 = b := List.inj_on_of_nodup_map hwf.1 hb0 hbm hid
      rw [hbeq]

theorem receive_bounds_mono (db : DB) (s : StockBatchCreate) (now : Nat)
    (nb : StockBatch) (db' : DB) (hwf : WF db) (hb : dbBounds db)
    (hok : receive_stock db s now = .ok (nb, db')) :
    (∀ b' ∈ db'.batches, batchBounds b') ∧
    (∀ b' ∈ db'.batches, ∀ b ∈ db.batches, b'.id = b.id →
      b'.remaining_quantity ≤ b.remaining_quantity) := by
  obtain ⟨hqpos, -, hid, hinit, hrem, hdb'⟩ := receive_ok_elim db s now nb db' hok
  rw [hdb']
  constructor
  · intro b' hb'
    rcases List.mem_append.mp hb' with hold | hnew
    · exact hb b' hold
    · rw [List.mem_singleton.mp hnew]
      constructor
      · rw [hrem]
        exact le_of_lt hqpos
      · rw [hrem, hinit]
  · intro b' hb' b hbm hbid
    rcases List.mem_append.mp hb' with hold | hnew
    · have hbeq : b' = b := List.inj_on_of_nodup_map hwf.1 hold hbm hbid
      rw [hbeq]
    · exfalso
      rw [List.mem_singleton.mp hnew] at hbid
      rw [hid] at hbid
      have := hwf.2 b hbm
      omega

/-! ### Concrete states for witnesses and counterexamples -/

/-- Concrete lot, mirroring the fixtures of the unit tests. -/
def sampleBatch (i : Nat) (sku : String) (arr : Nat) (q : ℚ)
    (loc : Option String) : StockBatch :=
  { id := i
    sku := sku
    batch_number := some ("L" ++ toString i)
    category := "MALT"
    arrival_date := arr
    expiration_date := none
    initial_quantity := q
    remaining_quantity := q
    unit_measure := "KG"
    unit_cost := 18
    total_cost := q * 18
    provider_name := none
    location := loc
    is_allocated := false
    lock_version := 1 }

/-- 80 kg available at "Silo A" and another 100 kg of the same SKU at
"Silo B" (the spec's concurrency scenario, run against one location). -/
def dbW1 : DB :=
  { batches := [sampleBatch 1 "MALT" 1 80 (some "Silo A"),
                sampleBatch 2 "MALT" 1 100 (some "Silo B")]
    movements := []
    transfers := []
    nextBatchId := 3
    nextTransferId := 1 }

/-- Two lots: L1 (30, day 1) and L2 (50, day 2) — the spec's FIFO scenario. -/
def dbW2 : DB :=
  { batches := [sampleBatch 1 "MALT" 1 30 none, sampleBatch 2 "MALT" 2 50 none]
    movements := []
    transfers := []
    nextBatchId := 3
    nextTransferId := 1 }

/-- 100 kg at location "Silo A" (the transfer scenarios). -/
def dbW6 : DB :=
  { batches := [sampleBatch 1 "MALT" 1 100 (some "Silo A")]
    movements := []
    transfers := []
    nextBatchId := 2
    nextTransferId := 1 }

/-- One lot of 10 (the single-batch consumption scenario). -/
def dbC4 : DB :=
  { batches := [sampleBatch 1 "MALT" 1 10 none]
    movements := []
    transfers := []
    nextBatchId := 2
    nextTransferId := 1 }

/-- Only 10 kg at "Silo A" (the failing-transfer scenario). -/
def dbC7 : DB :=
  { batches := [sampleBatch 1 "MALT" 1 10 (some "Silo A")]
    movements := []
    transfers := []
    nextBatchId := 2
    nextTransferId := 1 }

/-- Two lots with the SAME arrival timestamp, stored with the higher id
first — the tie-break scenario. -/
def dbC8 : DB :=
  { batches := [sampleBatch 2 "MALT" 5 10 none, sampleBatch 1 "MALT" 5 10 none]
    movements := []
    transfers := []
    nextBatchId := 3
    nextTransferId := 1 }

/-- One lot of 10 (the non-positive-request scenario). -/
def dbC9 : DB :=
  { batches := [sampleBatch 1 "MALT" 1 10 none]
    movements := []
    transfers := []
    nextBatchId := 2
    nextTransferId := 1 }

/-! ### The claims -/

/-- C1: for every set of concurrent `allocate_stock_fifo` calls against the
same SKU (and location) — serialized by the `SELECT ... FOR UPDATE` row lock,
so modelled as a sequence of calls against the evolving state, with failed
calls rolled back — the sum of quantities granted to the successful calls
never exceeds the quantity available in the locked eligible set (the
location-filtered remaining total) when the first call began locking, and
the final location-filtered total remaining quantity (and likewise the
SKU-wide total) equals the initial total minus exactly the sum of granted
quantities: no oversell, no double-grant. -/
theorem C1_no_oversell_serialized (db : DB) (sku : String) (loc : Option String)
    (reqs : List ℚ) (hwf : WF db) (hb : dbBounds db) :
    grantedSum (runAllocs sku loc db reqs).2 ≤
      ((eligible db.batches sku loc).map (·.remaining_quantity)).sum ∧
    totalSkuAt (runAllocs sku loc db reqs).1.batches sku loc =
      totalSkuAt db.batches sku loc - grantedSum (runAllocs sku loc db reqs).2 ∧
    totalSku (runAllocs sku loc db reqs).1.batches sku =
      totalSku db.batches sku - grantedSum (runAllocs sku loc db reqs).2 := by
  obtain ⟨-, g2, g3, g4, -⟩ := runAllocs_ind sku loc reqs db hwf hb
  refine ⟨?_, g3, g4⟩
  rw [← totalSkuAt_eq_eligible_sum sku loc db.batches
    (fun b hbm => (hb b hbm).1)]
  have hfin : 0 ≤ totalSkuAt (runAllocs sku loc db reqs).1.batches sku loc :=
    totalBy_nonneg _ _ (fun b hbm => (g2 b hbm).1)
  linarith

/-- Witness: 80 kg at "Silo A" (plus 100 kg of the same SKU at "Silo B",
outside the locked set) and five serialized `allocate(30, "Silo A")` calls:
the theorem bounds the granted total by the 80 available at "Silo A" and
conserves both the location total and the SKU-wide total exactly. -/
theorem C1_no_oversell_serialized_witness :
    WF dbW1 ∧ dbBounds dbW1 ∧
    (grantedSum (runAllocs "MALT" (some "Silo A") dbW1 [30, 30, 30, 30, 30]).2 ≤
      ((eligible dbW1.batches "MALT" (some "Silo A")).map
        (·.remaining_quantity)).sum ∧
     totalSkuAt (runAllocs "MALT" (some "Silo A") dbW1
        [30, 30, 30, 30, 30]).1.batches "MALT" (some "Silo A") =
      totalSkuAt dbW1.batches "MALT" (some "Silo A") -
        grantedSum (runAllocs "MALT" (some "Silo A") dbW1 [30, 30, 30, 30, 30]).2 ∧
     totalSku (runAllocs "MALT" (some "Silo A") dbW1
        [30, 30, 30, 30, 30]).1.batches "MALT" =
      totalSku dbW1.batches "MALT" -
        grantedSum (runAllocs "MALT" (some "Silo A") dbW1 [30, 30, 30, 30, 30]).2) :=
  ⟨by decide, by decide,
   C1_no_oversell_serialized dbW1 "MALT" (some "Silo A") [30, 30, 30, 30, 30]
     (by decide) (by decide)⟩

/-- C2: a successful allocation of a positive quantity against eligible lots
consumes lots oldest-first (its fragments form a prefix of the
arrival-sorted eligible query), takes `min(lot.remaining, still_needed)`
from each lot (every fragment before the last drains its lot in full, every
fragment is positive and within its lot's remaining quantity), returns
fragments summing exactly to the requested amount, decrements each consumed
lot by exactly its fragment and flags it `is_allocated` when it reaches
zero, appends exactly one CONSUMPTION movement per fragment, and leaves
every lot not consumed unchanged. -/
theorem C2_fifo_multi_lot_allocation (db : DB) (sku : String) (amt : ℚ)
    (loc : Option String) (o : Option MovementOrigin) (r cb : Option String)
    (allocs : List AllocEntry) (db' : DB)
    (hwf : WF db) (hpos : 0 < amt)
    (hok : allocate_stock_fifo db sku amt loc o r cb = (.ok allocs, db')) :
    (allocs.map (·.quantity)).sum = amt ∧
    List.Sorted arrivalLe (eligible db.batches sku loc) ∧
    (∃ frags : List (StockBatch × ℚ),
      frags.map Prod.fst <+: eligible db.batches sku loc ∧
      allocs = frags.map (fun p => mkAllocEntry p.1 p.2) ∧
      (∀ p ∈ frags, 0 < p.2 ∧ p.2 ≤ p.1.remaining_quantity) ∧
      (∀ p ∈ frags.dropLast, p.2 = p.1.remaining_quantity) ∧
      (∀ p ∈ frags, ∃ b' ∈ db'.batches, b'.id = p.1.id ∧
        b'.remaining_quantity = p.1.remaining_quantity - p.2 ∧
        (b'.remaining_quantity = 0 → b'.is_allocated = true)) ∧
      db'.movements = db.movements ++
        frags.map (fun p => consumptionMovement o r cb p.1 p.2)) ∧
    (∀ b ∈ db.batches, (∀ a ∈ allocs, a.batch_id ≠ b.id) → b ∈ db'.batches) := by
  obtain ⟨-, h2, h3⟩ := allocate_ok_elim db sku amt loc o r cb allocs db' hok
  refine ⟨allocate_ok_sum db sku amt loc o r cb allocs db' (le_of_lt hpos) hok,
    eligible_sorted db.batches sku loc,
    ⟨fifoFragments amt (eligible db.batches sku loc),
      fifoFragments_map_fst_prefix amt (eligible db.batches sku loc),
      h2,
      ?_,
      fifoFragments_dropLast_full amt (eligible db.batches sku loc),
      allocate_ok_per_frag db sku amt loc o r cb allocs db' hwf.1 hok,
      ?_⟩,
    ?_⟩
  · intro p hp
    exact ((fifoFragments_mem amt _ (eligible_pos db.batches sku loc)) p hp).2
  · rw [h3]
  · intro b hbm hno
    refine allocate_ok_untouched db sku amt loc o r cb allocs db' hok b hbm ?_
    intro p hp
    refine hno (mkAllocEntry p.1 p.2) ?_
    rw [h2]
    exact List.mem_map_of_mem _ hp

/-- Witness: `allocate("MALT", 60)` against L1 = 30 (day 1), L2 = 50 (day 2)
succeeds and the theorem's full conclusion holds for its result (the
multi-lot split returning 30 + 30). -/
theorem C2_fifo_multi_lot_allocation_witness :
    WF dbW2 ∧ (0 : ℚ) < 60 ∧
    ∃ allocs db',
      allocate_stock_fifo dbW2 "MALT" 60 none none none none =
        (.ok allocs, db') ∧
      ((allocs.map (·.quantity)).sum = 60 ∧
       List.Sorted arrivalLe (eligible dbW2.batches "MALT" none) ∧
       (∃ frags : List (StockBatch × ℚ),
         frags.map Prod.fst <+: eligible dbW2.batches "MALT" none ∧
         allocs = frags.map (fun p => mkAllocEntry p.1 p.2) ∧
         (∀ p ∈ frags, 0 < p.2 ∧ p.2 ≤ p.1.remaining_quantity) ∧
         (∀ p ∈ frags.dropLast, p.2 = p.1.remaining_quantity) ∧
         (∀ p ∈ frags, ∃ b' ∈ db'.batches, b'.id = p.1.id ∧
           b'.remaining_quantity = p.1.remaining_quantity - p.2 ∧
           (b'.remaining_quantity = 0 → b'.is_allocated = true)) ∧
         db'.movements = dbW2.movements ++
           frags.map (fun p => consumptionMovement none none none p.1 p.2)) ∧
       (∀ b ∈ dbW2.batches, (∀ a ∈ allocs, a.batch_id ≠ b.id) →
         b ∈ db'.batches)) :=
  ⟨by decide, by decide,
   (allocate_stock_fifo dbW2 "MALT" 60 none none none none).1.toOption.getD [],
   (allocate_stock_fifo dbW2 "MALT" 60 none none none none).2,
   by decide,
   C2_fifo_multi_lot_allocation dbW2 "MALT" 60 none none none none _ _
     (by decide) (by decide) (by decide)⟩

/-- C3: when the requested quantity exceeds the total remaining quantity of
the eligible lots, `allocate_stock_fifo` raises InsufficientStock carrying
the exact requested and available quantities, and the session state it
leaves behind is the input state unchanged — same lots, same ledger, never
a partial grant. -/
theorem C3_insufficient_stock_untouched (db : DB) (sku : String) (amt : ℚ)
    (loc : Option String) (o : Option MovementOrigin) (r cb : Option String)
    (h : ((eligible db.batches sku loc).map (·.remaining_quantity)).sum < amt) :
    allocate_stock_fifo db sku amt loc o r cb =
      (.error ⟨sku, amt,
        ((eligible db.batches sku loc).map (·.remaining_quantity)).sum⟩, db) :=
  allocate_error_cond db sku amt loc o r cb h

/-- Witness: `allocate("MALT", 100)` against 30 + 50 available fails with
InsufficientStock(requested = 100, available = 80) and leaves the state
untouched. -/
theorem C3_insufficient_stock_untouched_witness :
    (((eligible dbW2.batches "MALT" none).map (·.remaining_quantity)).sum <
      (100 : ℚ)) ∧
    allocate_stock_fifo dbW2 "MALT" 100 none none none none =
      (.error ⟨"MALT", 100,
        ((eligible dbW2.batches "MALT" none).map (·.remaining_quantity)).sum⟩,
       dbW2) :=
  ⟨by decide,
   C3_insufficient_stock_untouched dbW2 "MALT" 100 none none none none
     (by decide)⟩

/-- C4: the claim demands that every decrement of a lot's
`remaining_quantity` be matched by a CONSUMPTION/TRANSFER_OUT ledger row in
the same transaction.  The code violates it: `consume_stock_batch`
(`PATCH /stock-batches/{id}/consume`) decrements the lot and commits without
writing any movement — the handler carries a TODO comment where the
`StockMovement` insert should be.  Evaluated here: a state satisfying the
conservation invariant stops satisfying it after one successful
consumption, whose result contains no ledger row at all. -/
theorem C4_consume_batch_breaks_ledger_conservation :
    conservation dbC4 ∧
    consume_stock_batch dbC4 1 4 "KG" =
      .ok ((consume_stock_batch dbC4 1 4 "KG").toOption.getD dbC4) ∧
    ¬ conservation ((consume_stock_batch dbC4 1 4 "KG").toOption.getD dbC4) ∧
    ((consume_stock_batch dbC4 1 4 "KG").toOption.getD dbC4).movements = [] := by
  decide

/-- C5: every lot satisfies `0 ≤ remaining_quantity ≤ initial_quantity` at
every reachable state: lots are created full, and each exposed operation
(receive, FIFO allocation, single-batch consumption, transfer — both their
success and failure paths) preserves the bounds and never increases any
existing lot's remaining quantity. -/
theorem C5_remaining_quantity_bounds (db db' : DB)
    (hwf : WF db) (hb : dbBounds db) (hs : Step db db') :
    dbBounds db' ∧
    ∀ b' ∈ db'.batches, ∀ b ∈ db.batches, b'.id = b.id →
      b'.remaining_quantity ≤ b.remaining_quantity := by
  cases hs with
  | receive s now nb db2 hok =>
    exact receive_bounds_mono db s now nb _ hwf hb hok
  | allocate sku amount loc o r cb =>
    cases hres : allocate_stock_fifo db sku amount loc o r cb with
    | mk res dbx =>
      cases res with
      | ok allocs =>
        exact ⟨allocate_ok_dbBounds db sku amount loc o r cb allocs dbx
            hres hwf hb,
          allocate_ok_mono db sku amount loc o r cb allocs dbx hwf.1 hres⟩
      | error e =>
        obtain ⟨-, -, hdbx⟩ := allocate_error_elim db sku amount loc o r cb
          e dbx hres
        rw [hdbx]
        refine ⟨hb, ?_⟩
        intro b' hb' b hbm hid
        have hbeq : b' = b := List.inj_on_of_nodup_map hwf.1 hb' hbm hid
        rw [hbeq]
  | consume bid q u db2 hok =>
    exact consume_bounds_mono db bid q u _ hwf hb hok
  | transfer sku q fl tl now rb n =>
    exact transfer_step_bounds db sku q fl tl now rb n hwf hb

/-- Witness: consuming 5 from the 100 kg lot keeps the bounds and is a pure
decrease. -/
theorem C5_remaining_quantity_bounds_witness :
    WF dbW6 ∧ dbBounds dbW6 ∧
    (dbBounds ((consume_stock_batch dbW6 1 5 "kg").toOption.getD dbW6) ∧
     ∀ b' ∈ ((consume_stock_batch dbW6 1 5 "kg").toOption.getD dbW6).batches,
       ∀ b ∈ dbW6.batches, b'.id = b.id →
         b'.remaining_quantity ≤ b.remaining_quantity) :=
  ⟨by decide, by decide,
   C5_remaining_quantity_bounds dbW6 _ (by decide) (by decide)
     (Step.consume dbW6 1 5 "kg" _ (by decide))⟩

/-- C6: a successful transfer conserves stock exactly: the SKU-wide total
remaining quantity is unchanged, the source-location total drops by exactly
the requested quantity, the destination-location total rises by exactly the
requested quantity, and every newly created destination lot is created full
and carries the unit cost of a source lot at the source location. -/
theorem C6_transfer_conserves_quantities (db : DB) (sku : String) (q : ℚ)
    (fl tl : String) (now : Nat) (rb n : Option String)
    (t : StockTransfer) (db' : DB)
    (hwf : WF db) (hq : 0 < q) (hne : fl ≠ tl)
    (hok : transfer_stock db sku q fl tl now rb n = (.ok t, db')) :
    totalSku db'.batches sku = totalSku db.batches sku ∧
    totalSkuLoc db'.batches sku fl = totalSkuLoc db.batches sku fl - q ∧
    totalSkuLoc db'.batches sku tl = totalSkuLoc db.batches sku tl + q ∧
    ∀ nb ∈ db'.batches, db.nextBatchId ≤ nb.id →
      nb.remaining_quantity = nb.initial_quantity ∧
      ∃ src ∈ db.batches, src.sku = sku ∧ src.location = some fl ∧
        nb.unit_cost = src.unit_cost := by
  obtain ⟨g1, g2, g3, g4, -⟩ :=
    transfer_ok_spec db sku q fl tl now rb n t db' hwf hq hne hok
  refine ⟨g1, g2, g3, ?_⟩
  intro nb hnb hge
  obtain ⟨-, -, -, h4, h5⟩ := g4 nb hnb hge
  exact ⟨h4, h5⟩

/-- Witness: `transfer("MALT", 40, "Silo A", "Silo B")` against 100 kg at
"Silo A" — all four conservation facts hold for the resulting state. -/
theorem C6_transfer_conserves_quantities_witness :
    WF dbW6 ∧ (0 : ℚ) < 40 ∧ "Silo A" ≠ "Silo B" ∧
    ∃ t db',
      transfer_stock dbW6 "MALT" 40 "Silo A" "Silo B" 7 none none =
        (.ok t, db') ∧
      (totalSku db'.batches "MALT" = totalSku dbW6.batches "MALT" ∧
       totalSkuLoc db'.batches "MALT" "Silo A" =
         totalSkuLoc dbW6.batches "MALT" "Silo A" - 40 ∧
       totalSkuLoc db'.batches "MALT" "Silo B" =
         totalSkuLoc dbW6.batches "MALT" "Silo B" + 40 ∧
       ∀ nb ∈ db'.batches, dbW6.nextBatchId ≤ nb.id →
         nb.remaining_quantity = nb.initial_quantity ∧
         ∃ src ∈ dbW6.batches, src.sku = "MALT" ∧
           src.location = some "Silo A" ∧ nb.unit_cost = src.unit_cost) :=
  by
  refine ⟨by decide, by decide, by decide,
    (transfer_stock dbW6 "MALT" 40 "Silo A" "Silo B" 7 none none).1.toOption.getD
      (pendingTransfer 0 "" 0 "" "" 0 none none),
    (transfer_stock dbW6 "MALT" 40 "Silo A" "Silo B" 7 none none).2,
    ?_, ?_⟩
  · decide
  · exact C6_transfer_conserves_quantities dbW6 "MALT" 40 "Silo A" "Silo B" 7
      none none
      ((transfer_stock dbW6 "MALT" 40 "Silo A" "Silo B" 7 none none).1.toOption.getD
        (pendingTransfer 0 "" 0 "" "" 0 none none))
      ((transfer_stock dbW6 "MALT" 40 "Silo A" "Silo B" 7 none none).2)
      (by decide) (by decide) (by decide) (by decide)

/-- C7 as amended: when the underlying allocation fails with
InsufficientStock, `transfer_stock` surfaces that same error (with the exact
requested and available quantities) and creates or alters no lot and no
ledger row; the transfer row it had inserted is still PENDING — the code
never sets FAILED — and the API handler rolls the whole session back, so the
caller observes the original state with no transfer row at all. -/
theorem C7_failed_transfer_rolls_back (db : DB) (sku : String) (q : ℚ)
    (fl tl : String) (now : Nat) (rb n : Option String)
    (h : ((eligible db.batches sku (some fl)).map (·.remaining_quantity)).sum < q) :
    (transfer_stock db sku q fl tl now rb n).1 =
      .error ⟨sku, q,
        ((eligible db.batches sku (some fl)).map (·.remaining_quantity)).sum⟩ ∧
    (transfer_stock db sku q fl tl now rb n).2.batches = db.batches ∧
    (transfer_stock db sku q fl tl now rb n).2.movements = db.movements ∧
    (transfer_stock db sku q fl tl now rb n).2.transfers =
      db.transfers ++ [pendingTransfer db.nextTransferId sku q fl tl now rb n] ∧
    (pendingTransfer db.nextTransferId sku q fl tl now rb n).status =
      TransferStatus.PENDING ∧
    create_transfer db sku q fl tl now rb n =
      (.error ⟨sku, q,
        ((eligible db.batches sku (some fl)).map (·.remaining_quantity)).sum⟩,
       db) := by
  have hc := transfer_error_cond db sku q fl tl now rb n h
  refine ⟨by rw [hc], by rw [hc], by rw [hc], by rw [hc], rfl, ?_⟩
  simp only [create_transfer, hc]

/-- Witness: transferring 20 with only 10 at the source — the amended
behaviour holds. -/
theorem C7_failed_transfer_rolls_back_witness :
    (((eligible dbC7.batches "MALT" (some "Silo A")).map
      (·.remaining_quantity)).sum < (20 : ℚ)) ∧
    ((transfer_stock dbC7 "MALT" 20 "Silo A" "Silo B" 5 none none).1 =
      .error ⟨"MALT", 20,
        ((eligible dbC7.batches "MALT" (some "Silo A")).map
          (·.remaining_quantity)).sum⟩ ∧
     (transfer_stock dbC7 "MALT" 20 "Silo A" "Silo B" 5 none none).2.batches =
       dbC7.batches ∧
     (transfer_stock dbC7 "MALT" 20 "Silo A" "Silo B" 5 none none).2.movements =
       dbC7.movements ∧
     (transfer_stock dbC7 "MALT" 20 "Silo A" "Silo B" 5 none none).2.transfers =
       dbC7.transfers ++
         [pendingTransfer dbC7.nextTransferId "MALT" 20 "Silo A" "Silo B" 5
           none none] ∧
     (pendingTransfer dbC7.nextTransferId "MALT" 20 "Silo A" "Silo B" 5
       none none).status = TransferStatus.PENDING ∧
     create_transfer dbC7 "MALT" 20 "Silo A" "Silo B" 5 none none =
       (.error ⟨"MALT", 20,
         ((eligible dbC7.batches "MALT" (some "Silo A")).map
           (·.remaining_quantity)).sum⟩,
        dbC7)) :=
  ⟨by decide,
   C7_failed_transfer_rolls_back dbC7 "MALT" 20 "Silo A" "Silo B" 5 none none
     (by decide)⟩

/-- C7, the claim as frozen, is false: on InsufficientStock the code never
sets the transfer row to FAILED — at raise time the one transfer row in the
session is still PENDING, and after the handler's rollback no transfer row
exists at all, so no FAILED record is ever observable. -/
theorem C7_counterexample :
    ((transfer_stock dbC7 "MALT" 20 "Silo A" "Silo B" 5 none none).1 =
      .error ⟨"MALT", 20, 10⟩) ∧
    ((transfer_stock dbC7 "MALT" 20 "Silo A" "Silo B" 5 none none).2.transfers.map
      (·.status) = [TransferStatus.PENDING]) ∧
    (∀ tr ∈ (transfer_stock dbC7 "MALT" 20 "Silo A" "Silo B" 5 none
        none).2.transfers, tr.status ≠ TransferStatus.FAILED) ∧
    ((create_transfer dbC7 "MALT" 20 "Silo A" "Silo B" 5 none none).2 = dbC7) ∧
    ((create_transfer dbC7 "MALT" 20 "Silo A" "Silo B" 5 none
      none).2.transfers = []) := by
  decide

/-- C8 as amended: the eligible-lot query returns lots sorted ascending by
arrival timestamp and is a permutation of the eligible rows, but applies no
identifier tie-break — `ORDER BY arrival_date ASC` is the only sort key, so
lots with identical arrival timestamps are returned in the store's
underlying row order. -/
theorem C8_query_sorted_by_arrival_only (bs : List StockBatch) (sku : String)
    (loc : Option String) :
    List.Sorted arrivalLe (eligible bs sku loc) ∧
    List.Perm (eligible bs sku loc) (bs.filter (eligiblePred sku loc)) :=
  ⟨eligible_sorted bs sku loc, eligible_perm bs sku loc⟩

/-- C8, the claim as frozen, is false: with two lots of equal arrival
timestamp stored in the order [id 2, id 1], the query returns id 2 first
(store order, not ascending identifier order), and an allocation that needs
only one lot consumes lot 2, not lot 1. -/
theorem C8_counterexample :
    ((eligible dbC8.batches "MALT" none).map (·.id) = [2, 1]) ∧
    (((allocate_stock_fifo dbC8 "MALT" 10 none none none none).1.toOption.getD
      []).map (·.batch_id) = [2]) := by
  decide

/-- C9 as amended: `allocate_stock_fifo` performs no non-positive-quantity
check of its own (there is no InvalidQuantity error anywhere in the
function): a request for a non-positive amount still runs the lot query and
then returns successfully with an empty fragment list, leaving the session
state — lots, ledger, everything — exactly unchanged.  (Non-positive amounts
are rejected only at the API schema layer, `amount_needed: gt=0`.) -/
theorem C9_nonpositive_allocation_is_noop (db : DB) (sku : String)
    (loc : Option String) (o : Option MovementOrigin) (r cb : Option String)
    (amt : ℚ) (h : amt ≤ 0) :
    allocate_stock_fifo db sku amt loc o r cb = (.ok [], db) := by
  have htot : 0 ≤ ((eligible db.batches sku loc).map (·.remaining_quantity)).sum :=
    List.sum_nonneg (by
      intro x hx
      obtain ⟨b, hb, rfl⟩ := List.mem_map.mp hx
      exact le_of_lt (eligible_pos db.batches sku loc b hb))
  simp only [allocate_stock_fifo]
  rw [if_neg (not_lt.mpr (le_trans h htot)),
    fifoFragments_nil_of_nonpos _ _ h]
  simp only [List.map_nil, List.append_nil]
  rfl

/-- Witness: a request for −1 returns ok with an empty allocation list and
the unchanged state. -/
theorem C9_nonpositive_allocation_is_noop_witness :
    ((-1 : ℚ) ≤ 0) ∧
    allocate_stock_fifo dbC9 "MALT" (-1) none none none none = (.ok [], dbC9) :=
  ⟨by norm_num,
   C9_nonpositive_allocation_is_noop dbC9 "MALT" none none none none (-1)
     (by norm_num)⟩

/-- C9, the claim as frozen, is false: a request for 0 (and equally any
negative amount) is not rejected with any error — the call succeeds with an
empty allocation list. -/
theorem C9_counterexample :
    allocate_stock_fifo dbC9 "MALT" 0 none none none none = (.ok [], dbC9) := by
  decide

/-- Shared core of C10: a successful transfer creates at least one new lot,
and every new lot (id at or above the pre-call autoincrement counter)
carries `arrival_date = now` — the transfer moment, the column default — and
sits at the destination. -/
theorem transfer_ok_new_lots (db : DB) (sku : String) (q : ℚ) (fl tl : String)
    (now : Nat) (rb n : Option String) (t : StockTransfer) (db' : DB)
    (hwf : WF db) (hq : 0 < q)
    (hok : transfer_stock db sku q fl tl now rb n = (.ok t, db')) :
    (∃ nb ∈ db'.batches, db.nextBatchId ≤ nb.id) ∧
    (∀ nb ∈ db'.batches, db.nextBatchId ≤ nb.id →
      nb.arrival_date = now ∧ nb.location = some tl) := by
  obtain ⟨allocs, db2, halloc, -, hdb'⟩ :=
    transfer_ok_elim db sku q fl tl now rb n t db' hok
  set db1 : DB :=
    { db with
      transfers := db.transfers ++
        [pendingTransfer db.nextTransferId sku q fl tl now rb n]
      nextTransferId := db.nextTransferId + 1 } with hdb1
  obtain ⟨nbs, hnb1, -, -, -, -, hne2, hnbs⟩ :=
    addDest_spec db.nextTransferId sku tl fl now rb allocs db2
  have hbatches : db'.batches = db2.batches ++ nbs := by
    rw [hdb']
    exact hnb1
  have hsum : (allocs.map (·.quantity)).sum = q :=
    allocate_ok_sum db1 sku q (some fl) _ _ rb allocs db2 (le_of_lt hq) halloc
  have hids2 : db2.batches.map (·.id) = db.batches.map (·.id) :=
    allocate_ok_ids db1 sku q (some fl) _ _ rb allocs db2 halloc
  obtain ⟨-, hnext2, -⟩ :=
    allocate_ok_transfers db1 sku q (some fl) _ _ rb allocs db2 halloc
  have hb1n : db1.nextBatchId = db.nextBatchId := rfl
  constructor
  · have hallocs_ne : allocs ≠ [] := by
      intro hc
      rw [hc] at hsum
      simp at hsum
      exact absurd hsum.symm (ne_of_gt hq)
    obtain ⟨nb, hnb⟩ := List.exists_mem_of_ne_nil nbs (hne2 hallocs_ne)
    refine ⟨nb, ?_, ?_⟩
    · rw [hbatches]
      exact List.mem_append_right _ hnb
    · have := (hnbs nb hnb).2.2.2.2.1
      rw [hnext2, hb1n] at this
      exact this
  · intro nb hnb hge
    rw [hbatches] at hnb
    rcases List.mem_append.mp hnb with h2 | hnbs'
    · exfalso
      have hmem : nb.id ∈ db.batches.map (·.id) := by
        rw [← hids2]
        exact List.mem_map_of_mem _ h2
      obtain ⟨b0, hb0, hbid⟩ := List.mem_map.mp hmem
      have := hwf.2 b0 hb0
      omega
    · exact ⟨(hnbs nb hnbs').2.2.1, (hnbs nb hnbs').2.1⟩

/-- C10: every destination lot created by a successful transfer gets its
arrival timestamp from the moment of the transfer (the model's
creation-time default), not from its source lot: when every pre-existing lot
arrived strictly before the transfer, every new destination lot's arrival
timestamp is strictly later than every pre-existing lot's — transferred
stock loses its FIFO seniority and ranks as the newest stock at the
destination. -/
theorem C10_transferred_stock_is_newest (db : DB) (sku : String) (q : ℚ)
    (fl tl : String) (now : Nat) (rb n : Option String)
    (t : StockTransfer) (db' : DB)
    (hwf : WF db) (hq : 0 < q)
    (hok : transfer_stock db sku q fl tl now rb n = (.ok t, db'))
    (hnow : ∀ b ∈ db.batches, b.arrival_date < now) :
    (∃ nb ∈ db'.batches, db.nextBatchId ≤ nb.id) ∧
    ∀ nb ∈ db'.batches, db.nextBatchId ≤ nb.id →
      nb.arrival_date = now ∧ nb.location = some tl ∧
      ∀ b ∈ db.batches, b.arrival_date < nb.arrival_date := by
  obtain ⟨hex, hall⟩ :=
    transfer_ok_new_lots db sku q fl tl now rb n t db' hwf hq hok
  refine ⟨hex, ?_⟩
  intro nb hnb hge
  obtain ⟨h1, h2⟩ := hall nb hnb hge
  refine ⟨h1, h2, ?_⟩
  intro b hbm
  rw [h1]
  exact hnow b hbm

/-- Witness: transferring 40 at time 7 from a lot that arrived at time 1 —
the new "Silo B" lot has arrival timestamp 7, strictly newer than every
pre-existing lot. -/
theorem C10_transferred_stock_is_newest_witness :
    WF dbW6 ∧ (0 : ℚ) < 40 ∧
    (∀ b ∈ dbW6.batches, b.arrival_date < 7) ∧
    ∃ t db',
      transfer_stock dbW6 "MALT" 40 "Silo A" "Silo B" 7 none none =
        (.ok t, db') ∧
      ((∃ nb ∈ db'.batches, dbW6.nextBatchId ≤ nb.id) ∧
       ∀ nb ∈ db'.batches, dbW6.nextBatchId ≤ nb.id →
         nb.arrival_date = 7 ∧ nb.location = some "Silo B" ∧
         ∀ b ∈ dbW6.batches, b.arrival_date < nb.arrival_date) :=
  by
  refine ⟨by decide, by decide, by decide,
    (transfer_stock dbW6 "MALT" 40 "Silo A" "Silo B" 7 none none).1.toOption.getD
      (pendingTransfer 0 "" 0 "" "" 0 none none),
    (transfer_stock dbW6 "MALT" 40 "Silo A" "Silo B" 7 none none).2,
    ?_, ?_⟩
  · decide
  · exact C10_transferred_stock_is_newest dbW6 "MALT" 40 "Silo A" "Silo B" 7
      none none
      ((transfer_stock dbW6 "MALT" 40 "Silo A" "Silo B" 7 none none).1.toOption.getD
        (pendingTransfer 0 "" 0 "" "" 0 none none))
      ((transfer_stock dbW6 "MALT" 40 "Silo A" "Silo B" 7 none none).2)
      (by decide) (by decide) (by decide) (by decide)

end DesertBrew
